import Mathlib

/-!
# ZooKeeper plugin: the metric collection pipeline of `metrics.go`

A shallow embedding of `src/metrics.go` (value coercion, the parsing loop of
`getMetricsData`, the liveness status and `populateMetrics`) together with the
parts of the Go standard library it calls (`strconv.Atoi`, `strconv.ParseFloat`,
`strconv.ParseBool`, `strings.Split`, `strings.Fields`, `strings.TrimSpace`,
`strings.Contains`, `strconv.Itoa`).

Conventions of the embedding.

* A Go `string` is a Lean `String`; the library functions are written over the
  character list `s.data`.  Every byte test the library performs is against an
  ASCII byte, and no byte of a multi-byte UTF-8 sequence is ASCII, so testing
  characters is the same as testing bytes.
* A Go `map[string]T` is a `Finmap` with `String` keys: finite, keys unique,
  unordered, equal exactly when the lookups agree.  `len m` is `m.keys.card`.
* `range` over a Go map visits the entries in an unspecified order, so
  `populateMetrics` takes the visiting order as a list of entries; statements
  about the built-in catalog quantify over every permutation of it.
* A run-time panic (index out of range, failed type assertion) is `none`.
* Logging has no effect on any result and is left out.
-/

namespace Zk

/-! ## Values -/

/-- Modelled from the spec: the SDK type `metric.SourceType` is declared outside the
repository; the spec gives the semantic type as `enum{Gauge, Attribute}`, the two
constants `metric.GAUGE` and `metric.ATTRIBUTE` the catalog uses. -/
inductive SourceType where
  | GAUGE
  | ATTRIBUTE
  deriving DecidableEq, Repr

/-- A Go `float64`, given by its IEEE-754 binary64 bit pattern (`math.Float64bits`). -/
structure Float64 where
  bits : Nat
  deriving DecidableEq, Repr

/-- The dynamic values (`interface{}`) that occur in the program: `int`, `float64`,
`bool` and `string` in the raw sample and the metric set, `string` and
`metric.SourceType` in the catalog slices. -/
inductive Iface where
  | int (i : Int)
  | float64 (f : Float64)
  | bool (b : Bool)
  | string (s : String)
  | sourceType (t : SourceType)
  deriving DecidableEq, Repr

/-- A Go `map[string]T`. -/
abbrev GoMap (β : Type) := Finmap (fun _ : String => β)

/-- Go's `len` of a map. -/
def GoMap.len {β : Type} (m : GoMap β) : Nat := m.keys.card

/-- The SDK's `metric.MetricSet`, a `map[string]interface{}`. -/
abbrev MetricSet := GoMap Iface

/-! ## `strconv` -/

/-- `strconv.IntSize`: the width of `int` (64-bit platforms). -/
def intSize : Nat := 64

/-- The byte test `'0' <= c && c <= '9'`. -/
def isDigit (c : Char) : Bool := 48 ≤ c.toNat && c.toNat ≤ 57

/-- The value `c - '0'` of a decimal digit. -/
def digitVal (c : Char) : Nat := c.toNat - 48

/-- The number written by a list of decimal digits, most significant first. -/
def decimalValue (ds : List Char) : Nat := ds.foldl (fun n c => n * 10 + digitVal c) 0

/-- The digits of `strconv.Atoi` after the sign: one or more decimal digits and
nothing else (base 10 is explicit, so no underscores and no base prefix), the value
within the range of `int`; `none` is the syntax or range error. -/
def atoiDigits (neg : Bool) (ds : List Char) : Option Int :=
  if ds.isEmpty || !ds.all isDigit then none
  else
    let un := decimalValue ds
    if neg then
      if un > 2 ^ (intSize - 1) then none else some (-(un : Int))
    else
      if un ≥ 2 ^ (intSize - 1) then none else some (un : Int)

/-- `strconv.Atoi`: an optional sign `+` or `-`, then the digits. -/
def Atoi (s : String) : Option Int :=
  match s.data with
  | '-' :: r => atoiDigits true r
  | '+' :: r => atoiDigits false r
  | r => atoiDigits false r

/-- `strconv.ParseBool`: exactly the twelve accepted spellings. -/
def ParseBool (str : String) : Option Bool :=
  if str = "1" ∨ str = "t" ∨ str = "T" ∨ str = "true" ∨ str = "TRUE" ∨ str = "True" then
    some true
  else if str = "0" ∨ str = "f" ∨ str = "F" ∨ str = "false" ∨ str = "FALSE"
      ∨ str = "False" then
    some false
  else none

/-! ### `strconv.ParseFloat`

The scanner follows `special` and `readFloat` of `strconv/atof.go` as of Go 1.13 and
later (decimal and hexadecimal floating-point literals, digit-separating underscores,
the case-insensitive `inf`, `infinity` and `nan`).  Go keeps at most 19 (16 for
hexadecimal) mantissa digits and a truncation flag and returns to the full digit
string when they do not decide the rounding; the float it returns is the number
read, rounded to the nearest binary64 value (ties to even).  The embedding keeps
every mantissa digit and rounds the exact number. -/

/-- The helper `lower` of `strconv`: the byte `c | ('x' - 'X')`. -/
def lower (c : Char) : Nat := c.toNat ||| 0x20

/-- The byte test `'a' <= lower(c) && lower(c) <= 'f'`. -/
def isHexLetter (c : Char) : Bool := 97 ≤ lower c && lower c ≤ 102

/-- `commonPrefixLenIgnoreCase(s, prefix)`, for a lower-case `prefix`. -/
def commonPrefixLenIgnoreCase : List Char → List Char → Nat
  | c :: s, p :: ps =>
    let c1 := if 65 ≤ c.toNat ∧ c.toNat ≤ 90 then c.toNat + 32 else c.toNat
    if c1 ≠ p.toNat then 0 else commonPrefixLenIgnoreCase s ps + 1
  | _, _ => 0

/-- The bits of `math.Inf(sign)`. -/
def infBits (neg : Bool) : Float64 :=
  ⟨if neg then 0xFFF0000000000000 else 0x7FF0000000000000⟩

/-- The bits of `math.NaN()`. -/
def nanBits : Float64 := ⟨0x7FF8000000000001⟩

/-- The `'i', 'I'` case of `special`, entered with `nsign` sign bytes skipped. -/
def specialInf (neg : Bool) (nsign : Nat) (s : List Char) : Option (Float64 × Nat) :=
  let n := commonPrefixLenIgnoreCase s "infinity".data
  let n := if 3 < n ∧ n < 8 then 3 else n
  if n = 3 ∨ n = 8 then some (infBits neg, nsign + n) else none

/-- `special`: the value and the length of a leading, possibly signed `inf`,
`infinity` or (unsigned) `nan`, letter case ignored. -/
def special (s : List Char) : Option (Float64 × Nat) :=
  match s with
  | [] => none
  | c :: r =>
    if c = '+' ∨ c = '-' then specialInf (c == '-') 1 r
    else if c = 'i' ∨ c = 'I' then specialInf false 0 s
    else if c = 'n' ∨ c = 'N' then
      if commonPrefixLenIgnoreCase s "nan".data = 3 then some (nanBits, 3) else none
    else none

/-- The variables of the mantissa loop of `readFloat`; `mantissa` holds every digit. -/
structure Mant where
  underscores : Bool
  sawdot : Bool
  sawdigits : Bool
  nd : Nat
  dp : Int
  mantissa : Nat
  deriving DecidableEq, Repr

/-- The mantissa loop of `readFloat` (label `loop`): the state at the first byte
that is no part of the mantissa, and the input from that byte on. -/
def readMantissa (hex : Bool) : List Char → Mant → Mant × List Char
  | [], st => (st, [])
  | c :: r, st =>
    if c = '_' then readMantissa hex r { st with underscores := true }
    else if c = '.' then
      if st.sawdot then (st, c :: r)
      else readMantissa hex r { st with sawdot := true, dp := st.nd }
    else if isDigit c then
      if c = '0' ∧ st.nd = 0 then
        readMantissa hex r { st with sawdigits := true, dp := st.dp - 1 }
      else
        readMantissa hex r { st with
          sawdigits := true, nd := st.nd + 1,
          mantissa := st.mantissa * (if hex then 16 else 10) + digitVal c }
    else if hex && isHexLetter c then
      readMantissa hex r { st with
        sawdigits := true, nd := st.nd + 1,
        mantissa := st.mantissa * 16 + (lower c - 97 + 10) }
    else (st, c :: r)

/-- The exponent digit loop of `readFloat`: the exponent (no longer extended once it
reaches 10000), whether an underscore was seen, and the rest of the input. -/
def readExpDigits : List Char → Nat → Bool → Nat × Bool × List Char
  | [], e, us => (e, us, [])
  | c :: r, e, us =>
    if c = '_' then readExpDigits r e true
    else if isDigit c then readExpDigits r (if e < 10000 then e * 10 + digitVal c else e) us
    else (e, us, c :: r)

/-- The loop of `underscoreOK`; `saw` is the last kind of byte seen (`'0'` a digit,
`'_'` an underscore, `'!'` anything else, `'^'` the start). -/
def underscoreOKLoop (hex : Bool) : List Char → Char → Bool
  | [], saw => saw != '_'
  | c :: r, saw =>
    if isDigit c || (hex && isHexLetter c) then underscoreOKLoop hex r '0'
    else if c = '_' then
      if saw != '0' then false else underscoreOKLoop hex r '_'
    else if saw = '_' then false
    else underscoreOKLoop hex r '!'

/-- `underscoreOK`: underscores only between digits (a base prefix counts as a digit). -/
def underscoreOK (s : List Char) : Bool :=
  let s1 := match s with
    | '-' :: r => r
    | '+' :: r => r
    | r => r
  match s1 with
  | '0' :: b :: r =>
    if lower b = 98 ∨ lower b = 111 ∨ lower b = 120 then
      underscoreOKLoop (lower b == 120) r '0'
    else underscoreOKLoop false s1 '^'
  | _ => underscoreOKLoop false s1 '^'

/-- What `readFloat` returns when `ok`: the number is `±mantissa * b ^ exp` with
`b = 2` when `hex` and `b = 10` otherwise; `rest` is the input not consumed. -/
structure ReadFloat where
  mantissa : Nat
  exp : Int
  neg : Bool
  hex : Bool
  rest : List Char
  deriving DecidableEq, Repr

/-- The end of `readFloat`: the exponent of the mantissa and the underscore check on
the consumed prefix. -/
def readFloatFinish (s : List Char) (neg hex : Bool) (st : Mant) (dp : Int) (ndMant : Nat)
    (underscores : Bool) (rest : List Char) : Option ReadFloat :=
  if underscores && !underscoreOK (s.take (s.length - rest.length)) then none
  else some
    { mantissa := st.mantissa, exp := if st.mantissa ≠ 0 then dp - ndMant else 0,
      neg := neg, hex := hex, rest := rest }

/-- `readFloat`: sign, optional `0x` prefix, mantissa, exponent (optional in base 10,
required in base 16); `none` is `ok == false`. -/
def readFloat (s : List Char) : Option ReadFloat :=
  if s.isEmpty then none
  else
    let (neg, s1) : Bool × List Char :=
      match s with
      | '+' :: r => (false, r)
      | '-' :: r => (true, r)
      | r => (false, r)
    let (hex, s2) : Bool × List Char :=
      match s1 with
      | '0' :: x :: c :: r => if lower x = 120 then (true, c :: r) else (false, s1)
      | _ => (false, s1)
    let (st, s3) := readMantissa hex s2 ⟨false, false, false, 0, 0, 0⟩
    if !st.sawdigits then none
    else
      let dp0 : Int := if st.sawdot then st.dp else st.nd
      let dp : Int := if hex then dp0 * 4 else dp0
      let ndMant : Nat := if hex then st.nd * 4 else st.nd
      let expChar : Nat := if hex then 112 else 101
      match s3 with
      | c :: r =>
        if lower c = expChar then
          let (esign, r1) : Int × List Char :=
            match r with
            | '+' :: t => (1, t)
            | '-' :: t => (-1, t)
            | t => (1, t)
          match r, r1 with
          | [], _ => none
          | _, [] => none
          | _, d :: t =>
            if !isDigit d then none
            else
              let (e, us, rest) := readExpDigits (d :: t) 0 st.underscores
              readFloatFinish s neg hex st (dp + (e : Int) * esign) ndMant us rest
        else if hex then none
        else readFloatFinish s neg hex st dp ndMant st.underscores s3
      | [] =>
        if hex then none
        else readFloatFinish s neg hex st dp ndMant st.underscores s3

/-- The number of binary digits of `n`, by halving (`fuel` bounds the halvings). -/
def bitLenAux : Nat → Nat → Nat
  | 0, _ => 0
  | fuel + 1, n => if n = 0 then 0 else bitLenAux fuel (n / 2) + 1

/-- The number of binary digits of `n` (0 for 0). -/
def bitLen (n : Nat) : Nat := bitLenAux n n

/-- The quotient `n / d` rounded to the nearest integer, ties to the even one. -/
def roundHalfEven (n d : Nat) : Nat :=
  let q := n / d
  let r := n % d
  if 2 * r < d then q
  else if d < 2 * r then q + 1
  else if q % 2 = 0 then q else q + 1

/-- The fraction `num / (den * 2 ^ k)` as a pair of naturals. -/
def scale2 (num den : Nat) (k : Int) : Nat × Nat :=
  if 0 ≤ k then (num, den * 2 ^ k.toNat) else (num * 2 ^ (-k).toNat, den)

/-- The binary64 bits (sign bit clear) of the float nearest to `num / den`, ties to
even, denormals included; `none` when it rounds beyond the largest finite float (the
range error of `ParseFloat`). -/
def roundToBits (num den : Nat) : Option Nat :=
  if num = 0 then some 0
  else
    let l : Int := (bitLen num : Int) - (bitLen den : Int)
    let (n0, d0) := scale2 num den l
    let e : Int := if d0 ≤ n0 then l else l - 1
    let e1 : Int := max e (-1022)
    let (n1, d1) := scale2 num den (e1 - 52)
    let m := roundHalfEven n1 d1
    let bits := (e1 + 1022).toNat * 2 ^ 52 + m
    if bits ≥ 0x7FF * 2 ^ 52 then none else some bits

/-- `strconv.ParseFloat(s, 64)`: the float for a well-formed `s` that is in range,
`none` for the syntax error (also when only a prefix of `s` is a number) and for the
range error. -/
def ParseFloat (s : String) : Option Float64 :=
  match special s.data with
  | some (f, n) => if n = s.data.length then some f else none
  | none =>
    match readFloat s.data with
    | none => none
    | some rf =>
      if !rf.rest.isEmpty then none
      else
        let b : Nat := if rf.hex then 2 else 10
        let (num, den) : Nat × Nat :=
          if 0 ≤ rf.exp then (rf.mantissa * b ^ rf.exp.toNat, 1)
          else (rf.mantissa, b ^ (-rf.exp).toNat)
        match roundToBits num den with
        | none => none
        | some bits => some ⟨bits + (if rf.neg then 2 ^ 63 else 0)⟩

/-! ## `asValue` -/

/-- `asValue`: the first of `strconv.Atoi`, `strconv.ParseFloat(_, 64)` and
`strconv.ParseBool` that returns no error gives the value; otherwise the string. -/
def asValue (value : String) : Iface :=
  match Atoi value with
  | some i => Iface.int i
  | none =>
    match ParseFloat value with
    | some f => Iface.float64 f
    | none =>
      match ParseBool value with
      | some b => Iface.bool b
      | none => Iface.string value

/-! ## `strings` -/

/-- `unicode.IsSpace`: the Unicode White_Space code points. -/
def isSpace (c : Char) : Bool :=
  let n := c.toNat
  (9 ≤ n && n ≤ 13) || n = 32 || n = 0x85 || n = 0xA0 || n = 0x1680
    || (0x2000 ≤ n && n ≤ 0x200A) || n = 0x2028 || n = 0x2029 || n = 0x202F
    || n = 0x205F || n = 0x3000

/-- `strings.Split(s, "\n")` on the characters: the pieces between the newlines, in
order, empty pieces kept (one more piece than there are newlines). -/
def splitNewline : List Char → List (List Char)
  | [] => [[]]
  | c :: r =>
    if c = '\n' then [] :: splitNewline r
    else
      match splitNewline r with
      | [] => [[c]]
      | l :: ls => (c :: l) :: ls

/-- `strings.Split(s, "\n")`. -/
def Split (s : String) : List String := (splitNewline s.data).map String.mk

/-- The loop of `strings.Fields`: `cur` is the field being read, last character
first. -/
def fieldsAux : List Char → List Char → List (List Char)
  | [], cur => if cur.isEmpty then [] else [cur.reverse]
  | c :: r, cur =>
    if isSpace c then
      if cur.isEmpty then fieldsAux r [] else cur.reverse :: fieldsAux r []
    else fieldsAux r (c :: cur)

/-- `strings.Fields`: the maximal runs of non-space characters, in order. -/
def Fields (s : String) : List String := (fieldsAux s.data []).map String.mk

/-- `strings.TrimSpace`: leading and trailing white space removed. -/
def TrimSpace (s : String) : String :=
  ⟨((s.data.dropWhile isSpace).reverse.dropWhile isSpace).reverse⟩

/-- `strings.Contains` on the characters. -/
def containsChars (substr : List Char) : List Char → Bool
  | [] => substr.isEmpty
  | c :: r => substr.isPrefixOf (c :: r) || containsChars substr r

/-- `strings.Contains(s, substr)`. -/
def Contains (s substr : String) : Bool := containsChars substr.data s.data

/-- `strconv.Itoa`: the decimal string of an `int`. -/
def Itoa (i : Int) : String := toString i

/-! ## The catalog and `populateMetrics` -/

/-- The entries of the map `metricsDefinition`, in the order of the source text: the
canonical name and the slice `{rawSourceKey, sourceType}`. -/
def metricsDefinition : List (String × List Iface) :=
  [ ("avg_latency", [Iface.string "zk_avg_latency", Iface.sourceType SourceType.GAUGE]),
    ("max_latency", [Iface.string "zk_max_latency", Iface.sourceType SourceType.GAUGE]),
    ("min_latency", [Iface.string "zk_min_latency", Iface.sourceType SourceType.GAUGE]),
    ("packets_received",
      [Iface.string "zk_packets_received", Iface.sourceType SourceType.GAUGE]),
    ("packets_sent", [Iface.string "zk_packets_sent", Iface.sourceType SourceType.GAUGE]),
    ("outstanding_requests",
      [Iface.string "zk_outstanding_requests", Iface.sourceType SourceType.GAUGE]),
    ("server_state", [Iface.string "zk_server_state", Iface.sourceType SourceType.ATTRIBUTE]),
    ("znode_count", [Iface.string "zk_znode_count", Iface.sourceType SourceType.GAUGE]),
    ("watch_count", [Iface.string "zk_watch_count", Iface.sourceType SourceType.GAUGE]),
    ("ephemerals_count",
      [Iface.string "zk_ephemerals_count", Iface.sourceType SourceType.GAUGE]),
    ("approximate_data_size",
      [Iface.string "zk_approximate_data_size", Iface.sourceType SourceType.GAUGE]),
    ("followers", [Iface.string "zk_followers", Iface.sourceType SourceType.GAUGE]),
    ("synced_followers",
      [Iface.string "zk_synced_followers", Iface.sourceType SourceType.GAUGE]),
    ("pending_syncs", [Iface.string "zk_pending_syncs", Iface.sourceType SourceType.GAUGE]),
    ("open_file_descriptor_count",
      [Iface.string "zk_open_file_descriptor_count", Iface.sourceType SourceType.GAUGE]),
    ("max_file_descriptor_count",
      [Iface.string "zk_max_file_descriptor_count", Iface.sourceType SourceType.GAUGE]),
    ("status", [Iface.string "status", Iface.sourceType SourceType.GAUGE]),
    ("zk_host", [Iface.string "zk_host", Iface.sourceType SourceType.ATTRIBUTE]),
    ("zk_port", [Iface.string "zk_port", Iface.sourceType SourceType.ATTRIBUTE]),
    ("num_alive_connections",
      [Iface.string "zk_num_alive_connections", Iface.sourceType SourceType.GAUGE]) ]

/-- The SDK method `MetricSet.SetMetric(name, value, sourceType)`, which is outside the
repository: from the metric set before the call, the metric set after it and the
returned error (`none` is `nil`). -/
abbrev SetMetric := MetricSet → String → Iface → SourceType → MetricSet × Option String

/-- A recorder whose outcome depends only on the name, value and type it is given:
when `store` gives a value it puts that value under the name and returns no error,
otherwise it returns an error and leaves the metric set as it was. -/
def recordWith (store : String → Iface → SourceType → Option Iface) : SetMetric :=
  fun sample name value sourceType =>
    match store name value sourceType with
    | some stored => (sample.insert name stored, none)
    | none => (sample, some "Invalid data type")

/-- A recorder that stores the value unchanged when `accept` holds of the name, value
and type, and rejects the entry otherwise. -/
def recordIf (accept : String → Iface → SourceType → Bool) : SetMetric :=
  recordWith (fun name value sourceType => if accept name value sourceType then some value else none)

/-- A recorder that always succeeds, storing the value under the given name. -/
def recordAlways : SetMetric := recordWith (fun _ value _ => some value)

/-- The error `populateMetrics` returns. -/
def errNoMetrics : String := "No metrics were found on the status response"

/-- One iteration of the loop of `populateMetrics` for the entry
`(metricName, metricInfo)`: `none` when `metricInfo[0]` or `metricInfo[1]` is out of
range or `metricInfo[1]` is no `metric.SourceType` (a panic); the metric set unchanged
on each `continue`; the error of `SetMetric` is only logged. -/
def visit (setMetric : SetMetric) (metrics : GoMap Iface) (sample : MetricSet)
    (entry : String × List Iface) : Option MetricSet :=
  match entry.2.get? 0, entry.2.get? 1 with
  | some rawSource, some (Iface.sourceType metricType) =>
    match rawSource with
    | Iface.string source =>
      match metrics.lookup source with
      | some rawMetric => some (setMetric sample entry.1 rawMetric metricType).1
      | none => some sample
    | _ => some sample
  | _, _ => none

/-- `populateMetrics(sample, metrics, metricsDefinition)`, the catalog given as the
list of its entries in the order `range` visits them: `none` for a panic, otherwise
the metric set after the pass and the returned error. -/
def populateMetrics (setMetric : SetMetric) (sample : MetricSet) (metrics : GoMap Iface)
    (catalog : List (String × List Iface)) : Option (MetricSet × Option String) :=
  match catalog.foldlM (visit setMetric metrics) sample with
  | none => none
  | some s => some (s, if s.len < 2 then some errNoMetrics else none)

/-! ## `runCommand` and `getMetricsData` -/

/-- The command-line arguments `args` the collector reads. -/
structure Args where
  Host : String
  Port : Int
  Cmd : String

/-- What one run of an external process gives: the captured standard output and
standard error, and whether `cmd.Run()` returned an error. -/
structure CmdRun where
  stdout : String
  stderr : String
  failed : Bool

/-- The operating system as seen by `runCommand`: executable, arguments and standard
input to the outcome of the run. -/
abbrev Exec := String → List String → String → CmdRun

/-- `runCommand(cmdExecutable, zkCommand)`: whatever the run captured on standard
output; the error of `cmd.Run()` and the standard error are only logged. -/
def runCommand (exec : Exec) (args : Args) (cmdExecutable zkCommand : String) : String :=
  (exec cmdExecutable [TrimSpace args.Host, Itoa args.Port] zkCommand).stdout

/-- One iteration of the parsing loop of `getMetricsData`. -/
def parseLine (rawMetrics : GoMap Iface) (line : String) : GoMap Iface :=
  match Fields line with
  | key :: value :: _ => rawMetrics.insert key (asValue (TrimSpace value))
  | _ => rawMetrics

/-- The parsing loop of `getMetricsData` over the output `outStr` of `mntr`. -/
def parseLines (outStr : String) (rawMetrics : GoMap Iface) : GoMap Iface :=
  (Split outStr).foldl parseLine rawMetrics

/-- The map `rawMetrics` that `getMetricsData` hands to `populateMetrics`, from the
configured host and port, the output of `mntr` and the output of `ruok`. -/
def buildRawMetrics (host : String) (port : Int) (mntrOut ruokOut : String) : GoMap Iface :=
  let m0 : GoMap Iface := Finmap.insert "zk_host" (Iface.string host) ∅
  let m1 := m0.insert "zk_port" (Iface.string (Itoa port))
  let m2 := parseLines mntrOut m1
  m2.insert "status" (Iface.int (if Contains ruokOut "imok" then 1 else 0))

/-- `getMetricsData(sample)`; `order` is the order in which `range` visits the entries
of `metricsDefinition`.  The call of `checkNCExists` only logs. -/
def getMetricsData (exec : Exec) (args : Args) (setMetric : SetMetric)
    (order : List (String × List Iface)) (sample : MetricSet) :
    Option (MetricSet × Option String) :=
  let cmdExecutable := TrimSpace args.Cmd
  let mntrOut := runCommand exec args cmdExecutable "mntr"
  let ruokOut := runCommand exec args cmdExecutable "ruok"
  populateMetrics setMetric sample
    (buildRawMetrics args.Host args.Port mntrOut ruokOut) order

/-! ## Notions used to state the properties -/

/-- The entry passes the indexings `metricInfo[0]`, `metricInfo[1]` and the type
assertion `metricInfo[1].(metric.SourceType)`: the iteration does not panic. -/
def entryOK (entry : String × List Iface) : Bool :=
  match entry.2.get? 0, entry.2.get? 1 with
  | some _, some (Iface.sourceType _) => true
  | _, _ => false

/-- The raw source key of a catalog entry: `metricInfo[0]` when it is a string. -/
def rawSourceKey (entry : String × List Iface) : Option String :=
  match entry.2.get? 0 with
  | some (Iface.string source) => some source
  | _ => none

/-- The declared type of a catalog entry: `metricInfo[1]` when it is a source type. -/
def entryType (entry : String × List Iface) : Option SourceType :=
  match entry.2.get? 1 with
  | some (Iface.sourceType t) => some t
  | _ => none

/-- The raw value of a catalog entry in a raw sample: the value under its raw source
key, when the entry has one and the sample holds it. -/
def rawValue (metrics : GoMap Iface) (entry : String × List Iface) : Option Iface :=
  match rawSourceKey entry with
  | some source => metrics.lookup source
  | none => none

/-- What the recorder `recordWith store` stores for a catalog entry, if anything. -/
def recorded (store : String → Iface → SourceType → Option Iface) (metrics : GoMap Iface)
    (entry : String × List Iface) : Option Iface :=
  match rawValue metrics entry, entryType entry with
  | some value, some t => store entry.1 value t
  | _, _ => none

/-- The metric set after a panic-free iteration with the recorder `recordWith store`. -/
def applyEntry (store : String → Iface → SourceType → Option Iface) (metrics : GoMap Iface)
    (sample : MetricSet) (entry : String × List Iface) : MetricSet :=
  match recorded store metrics entry with
  | some stored => sample.insert entry.1 stored
  | none => sample

/-- The canonical names of a catalog. -/
def names (catalog : List (String × List Iface)) : List String := catalog.map (fun e => e.1)

/-- The raw source keys of a catalog. -/
def sourceKeys (catalog : List (String × List Iface)) : List String :=
  catalog.filterMap rawSourceKey

/-- The raw sample `{zk_avg_latency: 12, zk_max_latency: 40}`. -/
def latencySample : GoMap Iface :=
  Finmap.insert "zk_avg_latency" (Iface.int 12) (Finmap.insert "zk_max_latency" (Iface.int 40) ∅)

/-- The metric set `{avg_latency: 12, max_latency: 40}`. -/
def latencyMetrics : MetricSet :=
  Finmap.insert "avg_latency" (Iface.int 12) (Finmap.insert "max_latency" (Iface.int 40) ∅)

/-- A raw sample with one mapped key (`zk_followers`) and one unmapped key. -/
def followersSample : GoMap Iface :=
  Finmap.insert "zk_followers" (Iface.int 4) (Finmap.insert "zk_version" (Iface.string "3.4.6") ∅)

/-- A recorder that rejects every gauge. -/
def rejectGauges : String → Iface → SourceType → Option Iface :=
  fun _ value sourceType => if sourceType = SourceType.GAUGE then none else some value

/-- The number of raw source keys of the built-in catalog that a raw sample holds. -/
def mappableKeys (rawSample : GoMap Iface) : Nat :=
  ((sourceKeys metricsDefinition).filter (fun k => k ∈ rawSample)).length

/-- A recorder test: gauges must be integers, attributes must be strings. -/
def acceptTyped : String → Iface → SourceType → Bool :=
  fun _ value sourceType =>
    match sourceType, value with
    | SourceType.GAUGE, Iface.int _ => true
    | SourceType.ATTRIBUTE, Iface.string _ => true
    | _, _ => false

/-- A raw sample whose `zk_server_state` is (wrongly) an integer. -/
def mixedSample : GoMap Iface :=
  Finmap.insert "zk_server_state" (Iface.int 7)
    (Finmap.insert "zk_avg_latency" (Iface.int 12)
      (Finmap.insert "zk_host" (Iface.string "localhost") ∅))

/-- The statistics output of the parser example of the spec. -/
def mntrExample : String := "zk_avg_latency 12\nzk_max_latency\nbadline\nzk_version 3.4.6"

/-- The token parses as the decimal integer `n`. -/
def ParsesAsDecimalInt (token : String) (n : Int) : Prop :=
  ∃ ds : List Char, ds ≠ [] ∧ (∀ c ∈ ds, isDigit c = true)
    ∧ (((token.data = ds ∨ token.data = '+' :: ds)
          ∧ n = (decimalValue ds : Int) ∧ decimalValue ds < 2 ^ (intSize - 1))
      ∨ (token.data = '-' :: ds
          ∧ n = -(decimalValue ds : Int) ∧ decimalValue ds ≤ 2 ^ (intSize - 1)))

/-- An operating system on which every probe invocation fails and prints nothing on
standard output (service down). -/
def deadExec : Exec := fun _ _ _ => ⟨"", "nc: connection refused", true⟩

/-- The arguments `-host localhost -port 2181 -cmd nc`. -/
def localArgs : Args := ⟨"localhost", 2181, "nc"⟩

/-- A statistics output with lines whose keys are the reserved keys `zk_host` and
`zk_port`. -/
def shadowingMntr : String := "zk_host elsewhere\nzk_port 9999"

/-- An operating system on which the probe prints one statistics line and then exits
with a nonzero status. -/
def partialExec : Exec := fun _ _ _ => ⟨"zk_avg_latency 12\n", "nc: broken pipe", true⟩

/-- No line of the statistics output with at least two fields has first field `k`. -/
def NoLineFor (k : String) (mntrOut : String) : Prop :=
  ∀ l ∈ Split mntrOut, ∀ v rest, Fields l ≠ k :: v :: rest

/-! ## Lemmas on the loop of `populateMetrics` -/

theorem visit_isSome (setMetric : SetMetric) (metrics : GoMap Iface) (sample : MetricSet)
    (entry : String × List Iface) :
    (visit setMetric metrics sample entry).isSome = entryOK entry := by
  unfold visit entryOK
  cases h0 : entry.2.get? 0 with
  | none => simp
  | some rawSource =>
    cases h1 : entry.2.get? 1 with
    | none => simp
    | some ty =>
      cases ty <;> simp
      cases rawSource <;> simp
      split <;> simp

theorem visit_recordWith (store : String → Iface → SourceType → Option Iface)
    (metrics : GoMap Iface) (sample : MetricSet) (entry : String × List Iface) :
    visit (recordWith store) metrics sample entry
      = if entryOK entry then some (applyEntry store metrics sample entry) else none := by
  unfold visit entryOK applyEntry recorded rawValue rawSourceKey entryType recordWith
  cases h0 : entry.2.get? 0 with
  | none => simp
  | some rawSource =>
    cases h1 : entry.2.get? 1 with
    | none => simp
    | some ty =>
      cases ty <;> simp
      cases rawSource <;> simp
      rename_i t source
      cases hl : Finmap.lookup source metrics with
      | none => simp
      | some v =>
        simp
        cases store entry.1 v t <;> simp

theorem foldlM_visit_isSome (setMetric : SetMetric) (metrics : GoMap Iface)
    (catalog : List (String × List Iface)) (sample : MetricSet) :
    (catalog.foldlM (visit setMetric metrics) sample).isSome = catalog.all entryOK := by
  induction catalog generalizing sample with
  | nil => simp
  | cons a l ih =>
    rw [List.foldlM_cons, List.all_cons]
    have hv := visit_isSome setMetric metrics sample a
    cases hs : visit setMetric metrics sample a with
    | none =>
      rw [hs] at hv
      simp at hv
      simp [hv]
    | some s1 =>
      rw [hs] at hv
      simp at hv
      simp [← hv, ih]

theorem foldlM_visit_recordWith (store : String → Iface → SourceType → Option Iface)
    (metrics : GoMap Iface) (catalog : List (String × List Iface)) (sample : MetricSet)
    (h : ∀ e ∈ catalog, entryOK e = true) :
    catalog.foldlM (visit (recordWith store) metrics) sample
      = some (catalog.foldl (applyEntry store metrics) sample) := by
  induction catalog generalizing sample with
  | nil => simp
  | cons a l ih =>
    have ha : entryOK a = true := h a (List.mem_cons_self a l)
    rw [List.foldlM_cons, visit_recordWith, if_pos ha, List.foldl_cons]
    exact ih _ (fun e he => h e (List.mem_cons_of_mem a he))

theorem lookup_applyEntry_of_ne (store : String → Iface → SourceType → Option Iface)
    (metrics : GoMap Iface) (sample : MetricSet) (entry : String × List Iface) (k : String)
    (hk : k ≠ entry.1) :
    (applyEntry store metrics sample entry).lookup k = sample.lookup k := by
  unfold applyEntry
  cases recorded store metrics entry with
  | none => rfl
  | some w => exact Finmap.lookup_insert_of_ne sample hk

theorem lookup_applyEntry_self (store : String → Iface → SourceType → Option Iface)
    (metrics : GoMap Iface) (sample : MetricSet) (entry : String × List Iface) :
    (applyEntry store metrics sample entry).lookup entry.1
      = (recorded store metrics entry).orElse (fun _ => sample.lookup entry.1) := by
  unfold applyEntry
  cases recorded store metrics entry with
  | none => rfl
  | some w => simp [Finmap.lookup_insert]

theorem lookup_foldl_of_not_mem (store : String → Iface → SourceType → Option Iface)
    (metrics : GoMap Iface) (catalog : List (String × List Iface)) (sample : MetricSet)
    (k : String) (hk : k ∉ names catalog) :
    (catalog.foldl (applyEntry store metrics) sample).lookup k = sample.lookup k := by
  induction catalog generalizing sample with
  | nil => rfl
  | cons a l ih =>
    simp only [names, List.map_cons, List.mem_cons, not_or] at hk
    rw [List.foldl_cons, ih _ hk.2, lookup_applyEntry_of_ne _ _ _ _ _ hk.1]

theorem lookup_foldl_of_mem (store : String → Iface → SourceType → Option Iface)
    (metrics : GoMap Iface) (catalog : List (String × List Iface)) (sample : MetricSet)
    (hnd : (names catalog).Nodup) (entry : String × List Iface) (he : entry ∈ catalog) :
    (catalog.foldl (applyEntry store metrics) sample).lookup entry.1
      = (recorded store metrics entry).orElse (fun _ => sample.lookup entry.1) := by
  induction catalog generalizing sample with
  | nil => simp at he
  | cons a l ih =>
    simp only [names, List.map_cons, List.nodup_cons] at hnd
    rw [List.foldl_cons]
    rcases List.mem_cons.1 he with rfl | hl
    · rw [lookup_foldl_of_not_mem _ _ _ _ _ hnd.1, lookup_applyEntry_self]
    · have hne : entry.1 ≠ a.1 := by
        intro heq
        exact hnd.1 (heq ▸ List.mem_map_of_mem (fun e => e.1) hl)
      rw [ih _ hnd.2 hl, lookup_applyEntry_of_ne _ _ _ _ _ hne]

theorem names_perm (c1 c2 : List (String × List Iface)) (hp : c1.Perm c2) :
    (names c1).Perm (names c2) := by
  unfold names
  exact hp.map _

theorem foldl_applyEntry_perm (store : String → Iface → SourceType → Option Iface)
    (metrics : GoMap Iface) (c1 c2 : List (String × List Iface)) (sample : MetricSet)
    (hp : c1.Perm c2) (hnd : (names c1).Nodup) :
    c1.foldl (applyEntry store metrics) sample = c2.foldl (applyEntry store metrics) sample := by
  have hnd2 : (names c2).Nodup := (names_perm c1 c2 hp).nodup_iff.1 hnd
  apply Finmap.ext_lookup
  intro k
  by_cases hk : k ∈ names c1
  · obtain ⟨e, he, rfl⟩ := List.mem_map.1 hk
    rw [lookup_foldl_of_mem _ _ _ _ hnd e he,
      lookup_foldl_of_mem _ _ _ _ hnd2 e (hp.mem_iff.1 he)]
  · have hk2 : k ∉ names c2 := fun h => hk ((names_perm c1 c2 hp).mem_iff.2 h)
    rw [lookup_foldl_of_not_mem _ _ _ _ _ hk, lookup_foldl_of_not_mem _ _ _ _ _ hk2]

theorem populateMetrics_recordWith (store : String → Iface → SourceType → Option Iface)
    (metrics : GoMap Iface) (catalog : List (String × List Iface)) (sample : MetricSet)
    (h : ∀ e ∈ catalog, entryOK e = true) :
    populateMetrics (recordWith store) sample metrics catalog
      = some (catalog.foldl (applyEntry store metrics) sample,
          if (catalog.foldl (applyEntry store metrics) sample).len < 2 then some errNoMetrics
          else none) := by
  unfold populateMetrics
  rw [foldlM_visit_recordWith store metrics catalog sample h]

theorem populateMetrics_eq_none (setMetric : SetMetric) (metrics : GoMap Iface)
    (catalog : List (String × List Iface)) (sample : MetricSet) :
    populateMetrics setMetric sample metrics catalog = none
      ↔ ∃ e ∈ catalog, entryOK e = false := by
  have h := foldlM_visit_isSome setMetric metrics catalog sample
  unfold populateMetrics
  cases hf : catalog.foldlM (visit setMetric metrics) sample with
  | none =>
    rw [hf] at h
    simp at h
    simpa using h
  | some s =>
    rw [hf] at h
    simp at h
    simpa using h

theorem populateMetrics_perm (store : String → Iface → SourceType → Option Iface)
    (metrics : GoMap Iface) (c1 c2 : List (String × List Iface)) (sample : MetricSet)
    (hp : c1.Perm c2) (hnd : (names c1).Nodup) :
    populateMetrics (recordWith store) sample metrics c1
      = populateMetrics (recordWith store) sample metrics c2 := by
  by_cases h : ∀ e ∈ c1, entryOK e = true
  · have h2 : ∀ e ∈ c2, entryOK e = true := fun e he => h e (hp.mem_iff.2 he)
    rw [populateMetrics_recordWith _ _ _ _ h, populateMetrics_recordWith _ _ _ _ h2,
      foldl_applyEntry_perm store metrics c1 c2 sample hp hnd]
  · have h1 : ∃ e ∈ c1, entryOK e = false := by
      push_neg at h
      obtain ⟨e, he, hne⟩ := h
      exact ⟨e, he, by simpa using hne⟩
    have h2 : ∃ e ∈ c2, entryOK e = false := by
      obtain ⟨e, he, hne⟩ := h1
      exact ⟨e, hp.mem_iff.1 he, hne⟩
    rw [(populateMetrics_eq_none _ _ _ _).2 h1, (populateMetrics_eq_none _ _ _ _).2 h2]

theorem eq_of_name_eq (catalog : List (String × List Iface)) (hnd : (names catalog).Nodup)
    (e1 e2 : String × List Iface) (h1 : e1 ∈ catalog) (h2 : e2 ∈ catalog)
    (h : e1.1 = e2.1) : e1 = e2 :=
  List.inj_on_of_nodup_map hnd h1 h2 h

theorem lookup_foldl_empty_iff (store : String → Iface → SourceType → Option Iface)
    (metrics : GoMap Iface) (catalog : List (String × List Iface))
    (hnd : (names catalog).Nodup) (k : String) (v : Iface) :
    (catalog.foldl (applyEntry store metrics) ∅).lookup k = some v
      ↔ ∃ e ∈ catalog, e.1 = k ∧ recorded store metrics e = some v := by
  by_cases hk : k ∈ names catalog
  · obtain ⟨e, he, rfl⟩ := List.mem_map.1 hk
    rw [lookup_foldl_of_mem _ _ _ _ hnd e he, Finmap.lookup_empty]
    constructor
    · intro h
      refine ⟨e, he, rfl, ?_⟩
      cases hr : recorded store metrics e with
      | none => rw [hr] at h; simp at h
      | some w => rw [hr] at h; simpa using h
    · rintro ⟨e2, he2, heq, hr⟩
      have : e2 = e := eq_of_name_eq catalog hnd e2 e he2 he heq
      subst this
      rw [hr]
      rfl
  · rw [lookup_foldl_of_not_mem _ _ _ _ _ hk, Finmap.lookup_empty]
    constructor
    · intro h
      simp at h
    · rintro ⟨e, he, rfl, _⟩
      exact absurd (List.mem_map_of_mem (fun e => e.1) he) hk

theorem metricsDefinition_entryOK : ∀ e ∈ metricsDefinition, entryOK e = true := by
  decide

theorem metricsDefinition_names_nodup : (names metricsDefinition).Nodup := by
  decide

theorem order_entryOK (order : List (String × List Iface))
    (hp : order.Perm metricsDefinition) : ∀ e ∈ order, entryOK e = true :=
  fun e he => metricsDefinition_entryOK e (hp.mem_iff.1 he)

theorem order_names_nodup (order : List (String × List Iface))
    (hp : order.Perm metricsDefinition) : (names order).Nodup :=
  (names_perm order metricsDefinition hp).nodup_iff.2 metricsDefinition_names_nodup

theorem entryOK_iff (e : String × List Iface) :
    entryOK e = true
      ↔ ∃ rawSource t, e.2.get? 0 = some rawSource ∧ e.2.get? 1 = some (Iface.sourceType t) := by
  unfold entryOK
  cases e.2.get? 0 with
  | none => simp
  | some rawSource =>
    cases e.2.get? 1 with
    | none => simp
    | some ty => cases ty <;> simp

theorem recorded_always (metrics : GoMap Iface) (e : String × List Iface)
    (he : entryOK e = true) (v : Iface) :
    recorded (fun _ value _ => some value) metrics e = some v
      ↔ ∃ source, rawSourceKey e = some source ∧ metrics.lookup source = some v := by
  obtain ⟨rawSource, t, h0, h1⟩ := (entryOK_iff e).1 he
  unfold recorded rawValue rawSourceKey entryType
  rw [h0, h1]
  cases rawSource <;> simp
  rename_i source
  cases Finmap.lookup source metrics <;> simp

/-- C1: started on the empty metric set with the built-in catalog (visited in any
order) and the recorder that always stores the value under the canonical name,
`populateMetrics` returns, and the metric set it yields holds `v` under `name` exactly
when some catalog entry with canonical name `name` has a raw source key under which the
raw sample holds `v`; the raw key `zk_version` is not a key of the result; and for the
raw sample `{zk_avg_latency: 12, zk_max_latency: 40}` the result is exactly
`{avg_latency: 12, max_latency: 40}` with no error. -/
theorem populateMetrics_builtin_exact (order : List (String × List Iface))
    (hp : order.Perm metricsDefinition) (rawSample : GoMap Iface) :
    (∃ s : MetricSet,
      populateMetrics recordAlways ∅ rawSample order
          = some (s, if s.len < 2 then some errNoMetrics else none)
        ∧ (∀ name v, s.lookup name = some v
            ↔ ∃ e ∈ metricsDefinition, e.1 = name
                ∧ ∃ source, rawSourceKey e = some source ∧ rawSample.lookup source = some v)
        ∧ "zk_version" ∉ s)
      ∧ populateMetrics recordAlways ∅ latencySample order = some (latencyMetrics, none) := by
  have hok := order_entryOK order hp
  have hnd := order_names_nodup order hp
  constructor
  · refine ⟨_, populateMetrics_recordWith _ rawSample order ∅ hok, ?_, ?_⟩
    · intro name v
      rw [lookup_foldl_empty_iff _ _ _ hnd]
      constructor
      · rintro ⟨e, he, hn, hr⟩
        exact ⟨e, hp.mem_iff.1 he, hn, (recorded_always rawSample e (hok e he) v).1 hr⟩
      · rintro ⟨e, he, hn, hr⟩
        have he2 : e ∈ order := hp.mem_iff.2 he
        exact ⟨e, he2, hn, (recorded_always rawSample e (hok e he2) v).2 hr⟩
    · rw [← Finmap.lookup_eq_none]
      apply lookup_foldl_of_not_mem
      intro hmem
      have h2 : "zk_version" ∈ names metricsDefinition :=
        (names_perm order metricsDefinition hp).mem_iff.1 hmem
      revert h2
      decide
  · have h1 : populateMetrics recordAlways ∅ latencySample order
        = populateMetrics recordAlways ∅ latencySample metricsDefinition :=
      populateMetrics_perm _ latencySample order metricsDefinition ∅ hp hnd
    have h2 : populateMetrics recordAlways ∅ latencySample metricsDefinition
        = some (Finmap.insert "max_latency" (Iface.int 40)
            (Finmap.insert "avg_latency" (Iface.int 12) ∅), none) := rfl
    have h3 : (Finmap.insert "max_latency" (Iface.int 40)
        (Finmap.insert "avg_latency" (Iface.int 12) ∅) : MetricSet) = latencyMetrics := by
      decide
    rw [h1, h2, h3]

/-- C1 at a concrete order: the built-in catalog visited last entry first. -/
theorem populateMetrics_builtin_exact_witness :
    (∃ s : MetricSet,
      populateMetrics recordAlways ∅ latencySample metricsDefinition.reverse
          = some (s, if s.len < 2 then some errNoMetrics else none)
        ∧ (∀ name v, s.lookup name = some v
            ↔ ∃ e ∈ metricsDefinition, e.1 = name
                ∧ ∃ source, rawSourceKey e = some source
                  ∧ latencySample.lookup source = some v)
        ∧ "zk_version" ∉ s)
      ∧ populateMetrics recordAlways ∅ latencySample metricsDefinition.reverse
          = some (latencyMetrics, none) :=
  populateMetrics_builtin_exact metricsDefinition.reverse
    (List.reverse_perm metricsDefinition) latencySample

/-- C2: `populateMetrics` panics exactly when some visited catalog entry fails an
indexing or the type assertion; in every other case, for every recorder, raw sample
and catalog, it returns, and the error it returns is the insufficient-metrics error
exactly when the metric set after the pass has fewer than 2 entries, and no error
when it has 2 or more. -/
theorem populateMetrics_error_iff (setMetric : SetMetric) (sample : MetricSet)
    (metrics : GoMap Iface) (catalog : List (String × List Iface)) :
    (populateMetrics setMetric sample metrics catalog = none
        ↔ ∃ e ∈ catalog, entryOK e = false)
      ∧ ∀ s err, populateMetrics setMetric sample metrics catalog = some (s, err) →
          (err = some errNoMetrics ↔ s.len < 2) ∧ (2 ≤ s.len → err = none) := by
  refine ⟨populateMetrics_eq_none setMetric metrics catalog sample, ?_⟩
  intro s err h
  unfold populateMetrics at h
  cases hf : catalog.foldlM (visit setMetric metrics) sample with
  | none => rw [hf] at h; simp at h
  | some s1 =>
    rw [hf] at h
    simp only [Option.some.injEq, Prod.mk.injEq] at h
    obtain ⟨rfl, rfl⟩ := h
    by_cases hlt : s1.len < 2
    · simp [hlt]
    · simp [hlt]

theorem recorded_mem (store : String → Iface → SourceType → Option Iface)
    (metrics : GoMap Iface) (e : String × List Iface) (v : Iface)
    (h : recorded store metrics e = some v) :
    ∃ source, rawSourceKey e = some source ∧ source ∈ metrics := by
  unfold recorded rawValue at h
  cases hk : rawSourceKey e with
  | none => rw [hk] at h; simp at h
  | some source =>
    rw [hk] at h
    refine ⟨source, rfl, ?_⟩
    cases hl : Finmap.lookup source metrics with
    | none => simp [hl] at h
    | some w => exact Finmap.mem_of_lookup_eq_some hl

theorem metricsDefinition_sourceKey_nodup : (metricsDefinition.map rawSourceKey).Nodup := by
  decide

theorem len_foldl_le_one (store : String → Iface → SourceType → Option Iface)
    (rawSample : GoMap Iface) (order : List (String × List Iface))
    (hp : order.Perm metricsDefinition) (h : mappableKeys rawSample ≤ 1) :
    (order.foldl (applyEntry store rawSample) ∅).len < 2 := by
  have hnd := order_names_nodup order hp
  have key : ∀ a, a ∈ order.foldl (applyEntry store rawSample) ∅ →
      ∃ e ∈ metricsDefinition, e.1 = a ∧ ∃ source, rawSourceKey e = some source
        ∧ source ∈ (sourceKeys metricsDefinition).filter (fun k => k ∈ rawSample) := by
    intro a ha
    obtain ⟨v, hv⟩ := Finmap.mem_iff.1 ha
    obtain ⟨e, he, hn, hr⟩ := (lookup_foldl_empty_iff store rawSample order hnd a v).1 hv
    obtain ⟨source, hs, hmem⟩ := recorded_mem store rawSample e v hr
    have he2 : e ∈ metricsDefinition := hp.mem_iff.1 he
    refine ⟨e, he2, hn, source, hs, ?_⟩
    rw [List.mem_filter]
    exact ⟨List.mem_filterMap.2 ⟨e, he2, hs⟩, by simpa using hmem⟩
  have hone : ∀ x ∈ (sourceKeys metricsDefinition).filter (fun k => k ∈ rawSample),
      ∀ y ∈ (sourceKeys metricsDefinition).filter (fun k => k ∈ rawSample), x = y := by
    unfold mappableKeys at h
    generalize (sourceKeys metricsDefinition).filter (fun k => k ∈ rawSample) = l at h
    match l, h with
    | [], _ => intro x hx; simp at hx
    | [z], _ =>
      intro x hx y hy
      simp only [List.mem_singleton] at hx hy
      rw [hx, hy]
    | _ :: _ :: _, h => simp at h
  have hcard : (order.foldl (applyEntry store rawSample) (∅ : MetricSet)).keys.card ≤ 1 := by
    rw [Finset.card_le_one]
    intro a ha b hb
    obtain ⟨e1, he1, hn1, s1, hs1, hm1⟩ := key a (Finmap.mem_keys.1 ha)
    obtain ⟨e2, he2, hn2, s2, hs2, hm2⟩ := key b (Finmap.mem_keys.1 hb)
    have hs : s1 = s2 := hone s1 hm1 s2 hm2
    have hee : e1 = e2 :=
      List.inj_on_of_nodup_map metricsDefinition_sourceKey_nodup he1 he2
        (by rw [hs1, hs2, hs])
    rw [← hn1, ← hn2, hee]
  unfold GoMap.len
  omega

/-- C3: started on the empty metric set with the built-in catalog (visited in any
order) and a recorder that stores or rejects each entry, `populateMetrics` returns the
insufficient-metrics error for the empty raw sample and for every raw sample that
holds at most one raw source key of the catalog, in particular exactly one, whatever
other keys it holds and whether or not the recording succeeds. -/
theorem populateMetrics_insufficient (order : List (String × List Iface))
    (hp : order.Perm metricsDefinition) (store : String → Iface → SourceType → Option Iface) :
    populateMetrics (recordWith store) ∅ ∅ order = some (∅, some errNoMetrics)
      ∧ ∀ rawSample : GoMap Iface, mappableKeys rawSample ≤ 1 →
          ∃ s : MetricSet, s.len < 2
            ∧ populateMetrics (recordWith store) ∅ rawSample order
              = some (s, some errNoMetrics) := by
  have hok := order_entryOK order hp
  have hgen : ∀ rawSample : GoMap Iface, mappableKeys rawSample ≤ 1 →
      ∃ s : MetricSet, s.len < 2
        ∧ populateMetrics (recordWith store) ∅ rawSample order
          = some (s, some errNoMetrics) := by
    intro rawSample h
    have hlen := len_foldl_le_one store rawSample order hp h
    refine ⟨_, hlen, ?_⟩
    rw [populateMetrics_recordWith _ _ _ _ hok, if_pos hlen]
  refine ⟨?_, hgen⟩
  have hempty : order.foldl (applyEntry store ∅) (∅ : MetricSet) = ∅ := by
    apply Finmap.ext_lookup
    intro k
    rw [Finmap.lookup_empty]
    cases hl : Finmap.lookup k (order.foldl (applyEntry store ∅) (∅ : MetricSet)) with
    | none => rfl
    | some v =>
      obtain ⟨e, _, _, hr⟩ :=
        (lookup_foldl_empty_iff store ∅ order (order_names_nodup order hp) k v).1 hl
      obtain ⟨source, _, hmem⟩ := recorded_mem store ∅ e v hr
      exact absurd hmem (Finmap.not_mem_empty)
  rw [populateMetrics_recordWith _ _ _ _ hok, hempty]
  rfl

/-- C3 at a concrete input: the catalog visited last entry first, a recorder that
rejects every gauge, and a raw sample with the one mapped key `zk_followers`. -/
theorem populateMetrics_insufficient_witness :
    populateMetrics (recordWith rejectGauges) ∅ ∅ metricsDefinition.reverse
        = some (∅, some errNoMetrics)
      ∧ mappableKeys followersSample ≤ 1
      ∧ ∃ s : MetricSet, s.len < 2
          ∧ populateMetrics (recordWith rejectGauges) ∅ followersSample metricsDefinition.reverse
            = some (s, some errNoMetrics) :=
  ⟨(populateMetrics_insufficient metricsDefinition.reverse
      (List.reverse_perm metricsDefinition) rejectGauges).1,
    by decide,
    (populateMetrics_insufficient metricsDefinition.reverse
      (List.reverse_perm metricsDefinition) rejectGauges).2 followersSample (by decide)⟩

/-- C8: the built-in catalog has exactly the 20 listed canonical names, each once;
`server_state`, `zk_host` and `zk_port` have type Attribute and every other entry has
type Gauge. -/
theorem metricsDefinition_names_types :
    (names metricsDefinition).Perm
        ["avg_latency", "max_latency", "min_latency", "packets_received", "packets_sent",
          "outstanding_requests", "server_state", "zk_host", "zk_port", "znode_count",
          "watch_count", "ephemerals_count", "approximate_data_size", "followers",
          "synced_followers", "pending_syncs", "open_file_descriptor_count",
          "max_file_descriptor_count", "num_alive_connections", "status"]
      ∧ metricsDefinition.length = 20
      ∧ (names metricsDefinition).Nodup
      ∧ ∀ e ∈ metricsDefinition,
          entryType e
            = some (if e.1 = "server_state" ∨ e.1 = "zk_host" ∨ e.1 = "zk_port"
                then SourceType.ATTRIBUTE else SourceType.GAUGE) := by
  refine ⟨by decide, by decide, by decide, by decide⟩

theorem recorded_recordIf (accept : String → Iface → SourceType → Bool)
    (metrics : GoMap Iface) (e : String × List Iface) (source : String) (t : SourceType)
    (hs : rawSourceKey e = some source) (ht : entryType e = some t) :
    recorded (fun name value sourceType => if accept name value sourceType then some value
        else none) metrics e
      = match metrics.lookup source with
        | some v => if accept e.1 v t then some v else none
        | none => none := by
  unfold recorded rawValue
  rw [hs, ht]
  cases hl : Finmap.lookup source metrics <;> simp [hl]

/-- C9: with a recorder that stores the accepted entries unchanged and rejects the
others, on a catalog with distinct names whose entries raise no panic,
`populateMetrics` always completes the pass; the only error it can return is the
insufficient-metrics error; every entry whose raw source key is present and accepted
is in the result under its canonical name with the raw value; an entry whose raw
source key is absent or whose value is rejected leaves its name as it was in the
initial set; and names outside the catalog are untouched. -/
theorem populateMetrics_rejections_absorbed (accept : String → Iface → SourceType → Bool)
    (sample : MetricSet) (rawSample : GoMap Iface) (catalog : List (String × List Iface))
    (hnd : (names catalog).Nodup) (hok : ∀ e ∈ catalog, entryOK e = true) :
    ∃ s err, populateMetrics (recordIf accept) sample rawSample catalog = some (s, err)
      ∧ (err = none ∨ err = some errNoMetrics)
      ∧ (∀ e ∈ catalog, ∀ source t v, rawSourceKey e = some source → entryType e = some t →
          rawSample.lookup source = some v → accept e.1 v t = true →
          s.lookup e.1 = some v)
      ∧ (∀ e ∈ catalog, rawValue rawSample e = none → s.lookup e.1 = sample.lookup e.1)
      ∧ (∀ e ∈ catalog, ∀ t v, rawValue rawSample e = some v → entryType e = some t →
          accept e.1 v t = false → s.lookup e.1 = sample.lookup e.1)
      ∧ (∀ k, k ∉ names catalog → s.lookup k = sample.lookup k) := by
  refine ⟨_, _, populateMetrics_recordWith _ rawSample catalog sample hok, ?_, ?_, ?_, ?_, ?_⟩
  · by_cases h : (catalog.foldl (applyEntry (fun name value sourceType =>
        if accept name value sourceType then some value else none) rawSample) sample).len < 2
    · exact Or.inr (if_pos h)
    · exact Or.inl (if_neg h)
  · intro e he source t v hs ht hl hacc
    rw [lookup_foldl_of_mem _ _ _ _ hnd e he, recorded_recordIf accept rawSample e source t hs ht,
      hl]
    simp [hacc]
  · intro e he hnone
    rw [lookup_foldl_of_mem _ _ _ _ hnd e he]
    have : recorded (fun name value sourceType => if accept name value sourceType
        then some value else none) rawSample e = none := by
      unfold recorded
      rw [hnone]
    rw [this]
    rfl
  · intro e he t v hv ht hacc
    rw [lookup_foldl_of_mem _ _ _ _ hnd e he]
    have : recorded (fun name value sourceType => if accept name value sourceType
        then some value else none) rawSample e = none := by
      unfold recorded
      rw [hv, ht]
      simp [hacc]
    rw [this]
    rfl
  · intro k hk
    exact lookup_foldl_of_not_mem _ _ _ _ k hk

/-- C9 at a concrete input: the built-in catalog, the recorder `acceptTyped` and a raw
sample whose `zk_server_state` is rejected. -/
theorem populateMetrics_rejections_absorbed_witness :
    ∃ s err, populateMetrics (recordIf acceptTyped) ∅ mixedSample metricsDefinition
        = some (s, err)
      ∧ (err = none ∨ err = some errNoMetrics)
      ∧ (∀ e ∈ metricsDefinition, ∀ source t v, rawSourceKey e = some source →
          entryType e = some t → mixedSample.lookup source = some v →
          acceptTyped e.1 v t = true → s.lookup e.1 = some v)
      ∧ (∀ e ∈ metricsDefinition, rawValue mixedSample e = none →
          s.lookup e.1 = (∅ : MetricSet).lookup e.1)
      ∧ (∀ e ∈ metricsDefinition, ∀ t v, rawValue mixedSample e = some v →
          entryType e = some t → acceptTyped e.1 v t = false →
          s.lookup e.1 = (∅ : MetricSet).lookup e.1)
      ∧ (∀ k, k ∉ names metricsDefinition → s.lookup k = (∅ : MetricSet).lookup k) :=
  populateMetrics_rejections_absorbed acceptTyped ∅ mixedSample metricsDefinition
    (by decide) (by decide)

/-- C10: with a recorder whose outcome depends only on the name, value and type of
the entry, two visiting orders of the same catalog (distinct names) give the same
result of `populateMetrics` from every initial metric set and raw sample: the same
metric set and the same error, and the run returns whenever no entry raises a panic;
hence `getMetricsData` on the same probe output gives the same result, and does
return, for every two visiting orders of the built-in catalog. -/
theorem populateMetrics_order_independent
    (store : String → Iface → SourceType → Option Iface) (sample : MetricSet)
    (rawSample : GoMap Iface) (c1 c2 : List (String × List Iface))
    (hp : c1.Perm c2) (hnd : (names c1).Nodup) :
    populateMetrics (recordWith store) sample rawSample c1
        = populateMetrics (recordWith store) sample rawSample c2
      ∧ ((∀ e ∈ c1, entryOK e = true) →
          ∃ r, populateMetrics (recordWith store) sample rawSample c1 = some r)
      ∧ ∀ (exec : Exec) (args : Args) (o1 o2 : List (String × List Iface)),
          o1.Perm metricsDefinition → o2.Perm metricsDefinition →
          getMetricsData exec args (recordWith store) o1 sample
              = getMetricsData exec args (recordWith store) o2 sample
            ∧ ∃ r, getMetricsData exec args (recordWith store) o1 sample = some r := by
  refine ⟨populateMetrics_perm store rawSample c1 c2 sample hp hnd, ?_, ?_⟩
  · intro hok
    exact ⟨_, populateMetrics_recordWith store rawSample c1 sample hok⟩
  · intro exec args o1 o2 h1 h2
    unfold getMetricsData
    exact ⟨populateMetrics_perm store _ o1 o2 sample (h1.trans h2.symm)
        (order_names_nodup o1 h1),
      _, populateMetrics_recordWith store _ o1 sample (order_entryOK o1 h1)⟩

/-- C10 at a concrete input: the built-in catalog in source order and last entry
first, the recorder `rejectGauges`, a non-empty initial metric set. -/
theorem populateMetrics_order_independent_witness :
    populateMetrics (recordWith rejectGauges) latencyMetrics mixedSample metricsDefinition
        = populateMetrics (recordWith rejectGauges) latencyMetrics mixedSample
            metricsDefinition.reverse
      ∧ ((∀ e ∈ metricsDefinition, entryOK e = true) →
          ∃ r, populateMetrics (recordWith rejectGauges) latencyMetrics mixedSample
            metricsDefinition = some r)
      ∧ ∀ (exec : Exec) (args : Args) (o1 o2 : List (String × List Iface)),
          o1.Perm metricsDefinition → o2.Perm metricsDefinition →
          getMetricsData exec args (recordWith rejectGauges) o1 latencyMetrics
              = getMetricsData exec args (recordWith rejectGauges) o2 latencyMetrics
            ∧ ∃ r, getMetricsData exec args (recordWith rejectGauges) o1 latencyMetrics
                = some r :=
  populateMetrics_order_independent rejectGauges latencyMetrics mixedSample
    metricsDefinition metricsDefinition.reverse
    (List.reverse_perm metricsDefinition).symm (by decide)

/-! ## Lemmas on the parsing loop -/

theorem parseLine_of_two (m : GoMap Iface) (line k v : String) (rest : List String)
    (h : Fields line = k :: v :: rest) :
    parseLine m line = m.insert k (asValue (TrimSpace v)) := by
  unfold parseLine
  rw [h]

theorem parseLine_of_short (m : GoMap Iface) (line : String)
    (h : (Fields line).length < 2) : parseLine m line = m := by
  unfold parseLine
  match hf : Fields line with
  | [] => rfl
  | [_] => rfl
  | _ :: _ :: _ =>
    rw [hf] at h
    simp only [List.length_cons] at h
    omega

theorem fields_cases (line : String) :
    (Fields line).length < 2 ∨ ∃ k v rest, Fields line = k :: v :: rest := by
  match Fields line with
  | [] => left; simp
  | [_] => left; simp
  | k :: v :: rest => right; exact ⟨k, v, rest, rfl⟩

theorem mem_foldl_parseLine (lines : List String) (m : GoMap Iface) (k : String) :
    k ∈ lines.foldl parseLine m
      ↔ k ∈ m ∨ ∃ line ∈ lines, ∃ v rest, Fields line = k :: v :: rest := by
  induction lines generalizing m with
  | nil => simp
  | cons a l ih =>
    rw [List.foldl_cons, ih]
    rcases fields_cases a with hshort | ⟨k2, v2, rest2, h2⟩
    · rw [parseLine_of_short m a hshort]
      constructor
      · rintro (h | ⟨line, hl, v, rest, hf⟩)
        · exact Or.inl h
        · exact Or.inr ⟨line, List.mem_cons_of_mem a hl, v, rest, hf⟩
      · rintro (h | ⟨line, hl, v, rest, hf⟩)
        · exact Or.inl h
        · rcases List.mem_cons.1 hl with rfl | hl2
          · rw [hf] at hshort
            simp only [List.length_cons] at hshort
            omega
          · exact Or.inr ⟨line, hl2, v, rest, hf⟩
    · rw [parseLine_of_two m a k2 v2 rest2 h2, Finmap.mem_insert]
      constructor
      · rintro ((rfl | h) | ⟨line, hl, v, rest, hf⟩)
        · exact Or.inr ⟨a, List.mem_cons_self a l, v2, rest2, h2⟩
        · exact Or.inl h
        · exact Or.inr ⟨line, List.mem_cons_of_mem a hl, v, rest, hf⟩
      · rintro (h | ⟨line, hl, v, rest, hf⟩)
        · exact Or.inl (Or.inr h)
        · rcases List.mem_cons.1 hl with rfl | hl2
          · rw [h2] at hf
            simp only [List.cons.injEq] at hf
            exact Or.inl (Or.inl hf.1.symm)
          · exact Or.inr ⟨line, hl2, v, rest, hf⟩

theorem lookup_foldl_parseLine_of_not (lines : List String) (m : GoMap Iface) (k : String)
    (h : ∀ l ∈ lines, ∀ v rest, Fields l ≠ k :: v :: rest) :
    (lines.foldl parseLine m).lookup k = m.lookup k := by
  induction lines generalizing m with
  | nil => rfl
  | cons a l ih =>
    rw [List.foldl_cons, ih _ (fun x hx => h x (List.mem_cons_of_mem a hx))]
    rcases fields_cases a with hshort | ⟨k2, v2, rest2, h2⟩
    · rw [parseLine_of_short m a hshort]
    · rw [parseLine_of_two m a k2 v2 rest2 h2]
      have hne : k ≠ k2 := by
        rintro rfl
        exact h a (List.mem_cons_self a l) v2 rest2 h2
      exact Finmap.lookup_insert_of_ne m hne

theorem fieldsAux_no_space (s cur : List Char) (hcur : ∀ c ∈ cur, isSpace c = false)
    (f : List Char) (hf : f ∈ fieldsAux s cur) : ∀ c ∈ f, isSpace c = false := by
  induction s generalizing cur with
  | nil =>
    unfold fieldsAux at hf
    by_cases he : cur.isEmpty = true
    · simp [he] at hf
    · simp only [he] at hf
      simp only [Bool.false_eq_true, if_false, List.mem_singleton] at hf
      subst hf
      intro c hc
      exact hcur c (List.mem_reverse.1 hc)
  | cons a r ih =>
    unfold fieldsAux at hf
    by_cases hsp : isSpace a = true
    · simp only [hsp, if_true] at hf
      by_cases he : cur.isEmpty = true
      · simp only [he, if_true] at hf
        exact ih [] (by simp) hf
      · simp only [he, Bool.false_eq_true, if_false, List.mem_cons] at hf
        rcases hf with rfl | hf
        · intro c hc
          exact hcur c (List.mem_reverse.1 hc)
        · exact ih [] (by simp) hf
    · simp only [hsp, Bool.false_eq_true, if_false] at hf
      refine ih (a :: cur) ?_ hf
      intro c hc
      rcases List.mem_cons.1 hc with rfl | hc2
      · simpa using hsp
      · exact hcur c hc2

theorem dropWhile_isSpace_eq (l : List Char) (h : ∀ c ∈ l, isSpace c = false) :
    l.dropWhile isSpace = l := by
  cases l with
  | nil => rfl
  | cons a r =>
    have ha : isSpace a = false := h a (List.mem_cons_self a r)
    simp [List.dropWhile, ha]

theorem TrimSpace_of_field (line f : String) (hf : f ∈ Fields line) : TrimSpace f = f := by
  unfold Fields at hf
  obtain ⟨l, hl, rfl⟩ := List.mem_map.1 hf
  have hns := fieldsAux_no_space line.data [] (by simp) l hl
  unfold TrimSpace
  have h1 : List.dropWhile isSpace l = l := dropWhile_isSpace_eq l hns
  have h2 : List.dropWhile isSpace l.reverse = l.reverse :=
    dropWhile_isSpace_eq l.reverse (fun c hc => hns c (List.mem_reverse.1 hc))
  simp only [h1, h2, List.reverse_reverse]

theorem lookup_parseLines_of_last (outStr : String) (m : GoMap Iface) (k : String)
    (pre post : List String) (line v : String) (rest : List String)
    (hsplit : Split outStr = pre ++ line :: post) (hline : Fields line = k :: v :: rest)
    (hlast : ∀ l ∈ post, ∀ v2 rest2, Fields l ≠ k :: v2 :: rest2) :
    (parseLines outStr m).lookup k = some (asValue v) := by
  unfold parseLines
  rw [hsplit, List.foldl_append, List.foldl_cons,
    lookup_foldl_parseLine_of_not post _ k hlast, parseLine_of_two _ line k v rest hline,
    Finmap.lookup_insert, TrimSpace_of_field line v (by rw [hline]; simp)]

theorem exists_last (lines : List String) (p : String → Prop) (h : ∃ l ∈ lines, p l) :
    ∃ pre line post, lines = pre ++ line :: post ∧ p line ∧ ∀ l ∈ post, ¬ p l := by
  induction lines with
  | nil => simp at h
  | cons a r ih =>
    by_cases hr : ∃ l ∈ r, p l
    · obtain ⟨pre, line, post, he, hp, hlast⟩ := ih hr
      exact ⟨a :: pre, line, post, by rw [he]; rfl, hp, hlast⟩
    · obtain ⟨l, hl, hpl⟩ := h
      rcases List.mem_cons.1 hl with rfl | hl2
      · exact ⟨[], l, r, rfl, hpl, fun x hx hpx => hr ⟨x, hx, hpx⟩⟩
      · exact absurd ⟨l, hl2, hpl⟩ hr

/-- C4: for every statistics output and every initial map, a key is in the map after
the parsing loop exactly when it was there before or some newline-separated line has
at least two whitespace-separated fields with the key as its first field (so, from
the empty map, exactly the first fields of such lines); a line with fewer than two
fields leaves the map as it is; and the example text contributes exactly
`{zk_avg_latency: Integer 12, zk_version: String "3.4.6"}`. -/
theorem parseLines_keys (outStr : String) (m : GoMap Iface) (k : String) :
    (k ∈ parseLines outStr m
        ↔ k ∈ m ∨ ∃ line ∈ Split outStr, ∃ v rest, Fields line = k :: v :: rest)
      ∧ (k ∈ parseLines outStr ∅
        ↔ ∃ line ∈ Split outStr, ∃ v rest, Fields line = k :: v :: rest)
      ∧ (∀ line, (Fields line).length < 2 → parseLine m line = m)
      ∧ parseLines mntrExample ∅
          = Finmap.insert "zk_avg_latency" (Iface.int 12)
              (Finmap.insert "zk_version" (Iface.string "3.4.6") ∅) := by
  refine ⟨mem_foldl_parseLine (Split outStr) m k, ?_, parseLine_of_short m, by decide⟩
  unfold parseLines
  rw [mem_foldl_parseLine]
  simp [Finmap.not_mem_empty]

/-- C5: when a line of the statistics output has at least two fields, the first being
`k` and the second `v`, and no later line has at least two fields with first field
`k`, the parsed value of `k` is `asValue v` (the last such line wins, the fields after
the second are ignored); and every key that is the first field of some line with at
least two fields has such a last line. -/
theorem parseLines_last_wins (outStr : String) (m : GoMap Iface) (k : String) :
    (∀ (pre post : List String) (line v : String) (rest : List String),
        Split outStr = pre ++ line :: post → Fields line = k :: v :: rest →
        (∀ l ∈ post, ∀ v2 rest2, Fields l ≠ k :: v2 :: rest2) →
        (parseLines outStr m).lookup k = some (asValue v))
      ∧ ((∃ line ∈ Split outStr, ∃ v rest, Fields line = k :: v :: rest) →
          ∃ (pre post : List String) (line v : String) (rest : List String),
            Split outStr = pre ++ line :: post ∧ Fields line = k :: v :: rest
              ∧ (∀ l ∈ post, ∀ v2 rest2, Fields l ≠ k :: v2 :: rest2)
              ∧ (parseLines outStr m).lookup k = some (asValue v)) := by
  have main : ∀ (pre post : List String) (line v : String) (rest : List String),
      Split outStr = pre ++ line :: post → Fields line = k :: v :: rest →
      (∀ l ∈ post, ∀ v2 rest2, Fields l ≠ k :: v2 :: rest2) →
      (parseLines outStr m).lookup k = some (asValue v) := by
    intro pre post line v rest hsplit hline hlast
    unfold parseLines
    rw [hsplit, List.foldl_append, List.foldl_cons,
      lookup_foldl_parseLine_of_not post _ k hlast, parseLine_of_two _ line k v rest hline,
      Finmap.lookup_insert, TrimSpace_of_field line v (by rw [hline]; simp)]
  refine ⟨main, ?_⟩
  intro h
  obtain ⟨pre, line, post, hsplit, ⟨v, rest, hline⟩, hlast⟩ :=
    exists_last (Split outStr) (fun l => ∃ v rest, Fields l = k :: v :: rest) h
  have hlast2 : ∀ l ∈ post, ∀ v2 rest2, Fields l ≠ k :: v2 :: rest2 :=
    fun l hl v2 rest2 hf => hlast l hl ⟨v2, rest2, hf⟩
  exact ⟨pre, post, line, v, rest, hsplit, hline, hlast2,
    main pre post line v rest hsplit hline hlast2⟩

/-- C5 at a concrete input: the key `a` occurs on three lines; the last one with two
fields or more is `a 3 4`, so the value is `Integer 3`. -/
theorem parseLines_last_wins_witness :
    (parseLines "a 1\nb 2\na 3 4\na" ∅).lookup "a" = some (asValue "3")
      ∧ asValue "3" = Iface.int 3 :=
  ⟨(parseLines_last_wins "a 1\nb 2\na 3 4\na" ∅ "a").1 ["a 1", "b 2"] ["a"] "a 3 4" "3" ["4"]
    (by decide) (by decide)
    (by
      intro l hl v2 rest2 h
      rw [List.mem_singleton.1 hl] at h
      have hf : Fields "a" = ["a"] := by decide
      rw [hf] at h
      simp at h),
    by decide⟩

/-! ## `asValue` and the liveness status -/

theorem atoiDigits_none_of_bad (neg : Bool) (ds : List Char)
    (h : ds = [] ∨ ¬ ∀ c ∈ ds, isDigit c = true) : atoiDigits neg ds = none := by
  unfold atoiDigits
  rcases h with rfl | h
  · rfl
  · have hall : ds.all isDigit = false := by
      rw [← Bool.not_eq_true, List.all_eq_true]
      exact h
    simp [hall]

theorem atoiDigits_of_good (neg : Bool) (ds : List Char) (he : ds ≠ [])
    (hd : ∀ c ∈ ds, isDigit c = true) :
    atoiDigits neg ds
      = if neg = true then
          (if decimalValue ds > 2 ^ (intSize - 1) then none
            else some (-(decimalValue ds : Int)))
        else
          (if decimalValue ds ≥ 2 ^ (intSize - 1) then none
            else some (decimalValue ds : Int)) := by
  unfold atoiDigits
  have hall : ds.all isDigit = true := List.all_eq_true.2 hd
  have hemp : ds.isEmpty = false := by
    cases ds with
    | nil => exact absurd rfl he
    | cons _ _ => rfl
  simp [hall, hemp]

theorem atoiDigits_iff (neg : Bool) (ds : List Char) (n : Int) :
    atoiDigits neg ds = some n
      ↔ ds ≠ [] ∧ (∀ c ∈ ds, isDigit c = true)
          ∧ ((neg = false ∧ n = (decimalValue ds : Int) ∧ decimalValue ds < 2 ^ (intSize - 1))
            ∨ (neg = true ∧ n = -(decimalValue ds : Int)
                ∧ decimalValue ds ≤ 2 ^ (intSize - 1))) := by
  by_cases hgood : ds ≠ [] ∧ ∀ c ∈ ds, isDigit c = true
  · obtain ⟨he, hd⟩ := hgood
    rw [atoiDigits_of_good neg ds he hd]
    cases neg
    · rw [if_neg (by simp)]
      by_cases h : decimalValue ds ≥ 2 ^ (intSize - 1)
      · rw [if_pos h]
        constructor
        · intro hn; cases hn
        · rintro ⟨_, _, ⟨_, _, hlt⟩ | ⟨hn, _⟩⟩
          · omega
          · cases hn
      · rw [if_neg h]
        constructor
        · intro hn
          injection hn with hn
          exact ⟨he, hd, Or.inl ⟨rfl, hn.symm, by omega⟩⟩
        · rintro ⟨_, _, ⟨_, hn, _⟩ | ⟨hn, _⟩⟩
          · rw [hn]
          · cases hn
    · rw [if_pos rfl]
      by_cases h : decimalValue ds > 2 ^ (intSize - 1)
      · rw [if_pos h]
        constructor
        · intro hn; cases hn
        · rintro ⟨_, _, ⟨hn, _⟩ | ⟨_, _, hle⟩⟩
          · cases hn
          · omega
      · rw [if_neg h]
        constructor
        · intro hn
          injection hn with hn
          exact ⟨he, hd, Or.inr ⟨rfl, hn.symm, by omega⟩⟩
        · rintro ⟨_, _, ⟨hn, _⟩ | ⟨_, hn, _⟩⟩
          · cases hn
          · rw [hn]
  · rw [atoiDigits_none_of_bad neg ds (by
      by_cases he : ds = []
      · exact Or.inl he
      · exact Or.inr (fun hd => hgood ⟨he, hd⟩))]
    constructor
    · intro hn; cases hn
    · rintro ⟨he, hd, _⟩
      exact absurd ⟨he, hd⟩ hgood

theorem Atoi_iff (token : String) (n : Int) :
    Atoi token = some n ↔ ParsesAsDecimalInt token n := by
  unfold Atoi ParsesAsDecimalInt
  split
  · rename_i r hr
    rw [atoiDigits_iff]
    constructor
    · rintro ⟨he, hd, ⟨hn, _⟩ | ⟨_, hn, hle⟩⟩
      · cases hn
      · exact ⟨r, he, hd, Or.inr ⟨hr, hn, hle⟩⟩
    · rintro ⟨ds, he, hd, ⟨h | h, _, _⟩ | ⟨h, hn, hle⟩⟩
      · rw [hr] at h
        subst h
        have hm : isDigit '-' = true := hd '-' (List.mem_cons_self _ _)
        exact absurd hm (by decide)
      · rw [hr] at h
        cases h
      · rw [hr] at h
        injection h with _ h
        subst h
        exact ⟨he, hd, Or.inr ⟨rfl, hn, hle⟩⟩
  · rename_i r hr
    rw [atoiDigits_iff]
    constructor
    · rintro ⟨he, hd, ⟨_, hn, hlt⟩ | ⟨hn, _⟩⟩
      · exact ⟨r, he, hd, Or.inl ⟨Or.inr hr, hn, hlt⟩⟩
      · cases hn
    · rintro ⟨ds, he, hd, ⟨h | h, hn, hlt⟩ | ⟨h, _, _⟩⟩
      · rw [hr] at h
        subst h
        have hp : isDigit '+' = true := hd '+' (List.mem_cons_self _ _)
        exact absurd hp (by decide)
      · rw [hr] at h
        injection h with _ h
        subst h
        exact ⟨he, hd, Or.inl ⟨rfl, hn, hlt⟩⟩
      · rw [hr] at h
        cases h
  · rename_i r hneg hpos
    rw [atoiDigits_iff]
    constructor
    · rintro ⟨he, hd, ⟨_, hn, hlt⟩ | ⟨hn, _⟩⟩
      · exact ⟨token.data, he, hd, Or.inl ⟨Or.inl rfl, hn, hlt⟩⟩
      · cases hn
    · rintro ⟨ds, he, hd, ⟨h | h, hn, hlt⟩ | ⟨h, _, _⟩⟩
      · rw [h]
        exact ⟨he, hd, Or.inl ⟨rfl, hn, hlt⟩⟩
      · exact absurd h (hpos ds)
      · exact absurd h (hneg ds)

/-- C6: `asValue` follows the ordered preference.  It returns `Integer n` exactly when
the token parses as the decimal integer `n` (`strconv.Atoi`: optional sign, decimal
digits, within the range of `int`); otherwise `Float f` exactly when
`strconv.ParseFloat` accepts the token with value `f`; otherwise `Boolean b` exactly
when `strconv.ParseBool` accepts it with value `b`; otherwise `String` with the token
unchanged.  `"42"` gives `Integer 42`, `"3.14"` the float nearest to 3.14, `"true"`
gives `Boolean true` and `"abc"` gives `String "abc"`. -/
theorem asValue_preference (token : String) :
    (∀ n, asValue token = Iface.int n ↔ ParsesAsDecimalInt token n)
      ∧ (∀ f, asValue token = Iface.float64 f
          ↔ (¬ ∃ n, ParsesAsDecimalInt token n) ∧ ParseFloat token = some f)
      ∧ (∀ b, asValue token = Iface.bool b
          ↔ (¬ ∃ n, ParsesAsDecimalInt token n) ∧ ParseFloat token = none
            ∧ ParseBool token = some b)
      ∧ (∀ s, asValue token = Iface.string s
          ↔ (¬ ∃ n, ParsesAsDecimalInt token n) ∧ ParseFloat token = none
            ∧ ParseBool token = none ∧ s = token)
      ∧ asValue "42" = Iface.int 42
      ∧ asValue "3.14" = Iface.float64 ⟨0x40091EB851EB851F⟩
      ∧ asValue "true" = Iface.bool true
      ∧ asValue "abc" = Iface.string "abc" := by
  have hnone : (¬ ∃ n, ParsesAsDecimalInt token n) ↔ Atoi token = none := by
    constructor
    · intro h
      cases ha : Atoi token with
      | none => rfl
      | some n => exact absurd ⟨n, (Atoi_iff token n).1 ha⟩ h
    · rintro h ⟨n, hn⟩
      rw [(Atoi_iff token n).2 hn] at h
      cases h
  refine ⟨?_, ?_, ?_, ?_, by decide, by decide, by decide, by decide⟩
  · intro n
    rw [← Atoi_iff]
    unfold asValue
    cases Atoi token with
    | some i => simp
    | none =>
      cases ParseFloat token with
      | some f => simp
      | none => cases ParseBool token <;> simp
  · intro f
    rw [hnone]
    unfold asValue
    cases Atoi token with
    | some i => simp
    | none =>
      cases ParseFloat token with
      | some f => simp
      | none => cases ParseBool token <;> simp
  · intro b
    rw [hnone]
    unfold asValue
    cases Atoi token with
    | some i => simp
    | none =>
      cases ParseFloat token with
      | some f => simp
      | none => cases ParseBool token <;> simp
  · intro s
    rw [hnone]
    unfold asValue
    cases Atoi token with
    | some i => simp
    | none =>
      cases ParseFloat token with
      | some f => simp
      | none =>
        cases ParseBool token with
        | some b => simp
        | none => simp [eq_comm]

theorem containsChars_iff (substr s : List Char) :
    containsChars substr s = true ↔ substr <:+: s := by
  induction s with
  | nil =>
    unfold containsChars
    rw [List.infix_nil, List.isEmpty_iff]
  | cons a r ih =>
    unfold containsChars
    rw [Bool.or_eq_true, ih, List.infix_cons_iff, List.isPrefixOf_iff_prefix]

/-- C7: for every host, port, statistics output and liveness response, the raw sample
built by `getMetricsData` holds under `status` the integer 1 when the liveness
response contains `imok` as a substring and the integer 0 otherwise, also when the
statistics output has a line with key `status`; `imok` gives 1, `notok` and the empty
text give 0; and this raw sample is the one handed to `populateMetrics`. -/
theorem status_from_liveness (host : String) (port : Int) (mntrOut ruokOut : String) :
    (buildRawMetrics host port mntrOut ruokOut).lookup "status"
        = some (Iface.int (if Contains ruokOut "imok" then 1 else 0))
      ∧ (Contains ruokOut "imok" = true ↔ "imok".data <:+: ruokOut.data)
      ∧ (buildRawMetrics host port mntrOut "imok").lookup "status" = some (Iface.int 1)
      ∧ (buildRawMetrics host port mntrOut "notok").lookup "status" = some (Iface.int 0)
      ∧ (buildRawMetrics host port mntrOut "").lookup "status" = some (Iface.int 0)
      ∧ (buildRawMetrics host port "status 5\nstatus up" "imok").lookup "status"
          = some (Iface.int 1)
      ∧ (parseLines "status 5\nstatus up" ∅).lookup "status" = some (Iface.string "up")
      ∧ ∀ (exec : Exec) (args : Args) (setMetric : SetMetric)
          (order : List (String × List Iface)) (sample : MetricSet),
          getMetricsData exec args setMetric order sample
            = populateMetrics setMetric sample
                (buildRawMetrics args.Host args.Port
                  (runCommand exec args (TrimSpace args.Cmd) "mntr")
                  (runCommand exec args (TrimSpace args.Cmd) "ruok")) order := by
  have h : ∀ r : String, (buildRawMetrics host port mntrOut r).lookup "status"
      = some (Iface.int (if Contains r "imok" then 1 else 0)) := by
    intro r
    unfold buildRawMetrics
    exact Finmap.lookup_insert _
  refine ⟨h ruokOut, containsChars_iff _ _, ?_, ?_, ?_, ?_, by decide, ?_⟩
  · rw [h]; rfl
  · rw [h]; rfl
  · rw [h]; rfl
  · unfold buildRawMetrics
    exact Finmap.lookup_insert _
  · intro exec args setMetric order sample
    rfl

/-! ## The liveness command and the raw sample -/

theorem lookup_buildRawMetrics_of_ne (host : String) (port : Int) (mntrOut ruokOut k : String)
    (hk : k ≠ "status") :
    (buildRawMetrics host port mntrOut ruokOut).lookup k
      = (parseLines mntrOut
          (Finmap.insert "zk_port" (Iface.string (Itoa port))
            (Finmap.insert "zk_host" (Iface.string host) ∅))).lookup k := by
  unfold buildRawMetrics
  exact Finmap.lookup_insert_of_ne _ hk

theorem recorded_congr (store : String → Iface → SourceType → Option Iface)
    (m1 m2 : GoMap Iface) (e : String × List Iface) (h : rawValue m1 e = rawValue m2 e) :
    recorded store m1 e = recorded store m2 e := by
  unfold recorded
  rw [h]

theorem metricsDefinition_status_key :
    ∀ e ∈ metricsDefinition, rawSourceKey e = some "status" → e.1 = "status" := by
  decide

theorem lookup_foldl_congr (store : String → Iface → SourceType → Option Iface)
    (m1 m2 : GoMap Iface) (order : List (String × List Iface))
    (hp : order.Perm metricsDefinition) (sample : MetricSet)
    (hm : ∀ k, k ≠ "status" → m1.lookup k = m2.lookup k) (name : String)
    (hn : name ≠ "status") :
    (order.foldl (applyEntry store m1) sample).lookup name
      = (order.foldl (applyEntry store m2) sample).lookup name := by
  have hnd := order_names_nodup order hp
  by_cases hmem : name ∈ names order
  · obtain ⟨e, he, rfl⟩ := List.mem_map.1 hmem
    rw [lookup_foldl_of_mem _ _ _ _ hnd e he, lookup_foldl_of_mem _ _ _ _ hnd e he]
    have hrv : rawValue m1 e = rawValue m2 e := by
      unfold rawValue
      cases hs : rawSourceKey e with
      | none => rfl
      | some source =>
        have hne : source ≠ "status" := by
          rintro rfl
          exact hn (metricsDefinition_status_key e (hp.mem_iff.1 he) hs)
        exact hm source hne
    rw [recorded_congr store m1 m2 e hrv]
  · rw [lookup_foldl_of_not_mem _ _ _ _ _ hmem, lookup_foldl_of_not_mem _ _ _ _ _ hmem]

/-- C11: for every host, port and statistics output and every two liveness responses,
the two raw samples built by `getMetricsData` agree on every key other than `status`;
and for every store-or-reject recorder, visiting order of the built-in catalog and
initial metric set, both runs of `populateMetrics` return and their metric sets agree
on every canonical name other than `status`. -/
theorem liveness_isolated (host : String) (port : Int) (mntrOut ruok1 ruok2 : String) :
    (∀ k : String, k ≠ "status" →
        (buildRawMetrics host port mntrOut ruok1).lookup k
          = (buildRawMetrics host port mntrOut ruok2).lookup k)
      ∧ ∀ (store : String → Iface → SourceType → Option Iface)
          (order : List (String × List Iface)) (sample : MetricSet),
          order.Perm metricsDefinition →
          ∃ s1 e1 s2 e2,
            populateMetrics (recordWith store) sample
                (buildRawMetrics host port mntrOut ruok1) order = some (s1, e1)
              ∧ populateMetrics (recordWith store) sample
                (buildRawMetrics host port mntrOut ruok2) order = some (s2, e2)
              ∧ ∀ name : String, name ≠ "status" → s1.lookup name = s2.lookup name := by
  have hraw : ∀ k : String, k ≠ "status" →
      (buildRawMetrics host port mntrOut ruok1).lookup k
        = (buildRawMetrics host port mntrOut ruok2).lookup k := by
    intro k hk
    rw [lookup_buildRawMetrics_of_ne _ _ _ _ _ hk, lookup_buildRawMetrics_of_ne _ _ _ _ _ hk]
  refine ⟨hraw, ?_⟩
  intro store order sample hp
  have hok := order_entryOK order hp
  exact ⟨_, _, _, _, populateMetrics_recordWith store _ order sample hok,
    populateMetrics_recordWith store _ order sample hok,
    fun name hn => lookup_foldl_congr store _ _ order hp sample hraw name hn⟩

/-- C11 at a concrete input: the liveness command answers `imok` in one run and fails
with empty output in the other; the latency of the statistics output is the same. -/
theorem liveness_isolated_witness :
    (buildRawMetrics "localhost" 2181 "zk_avg_latency 12" "imok").lookup "zk_avg_latency"
        = (buildRawMetrics "localhost" 2181 "zk_avg_latency 12" "").lookup "zk_avg_latency"
      ∧ ∃ s1 e1 s2 e2,
          populateMetrics (recordWith rejectGauges) ∅
              (buildRawMetrics "localhost" 2181 "zk_avg_latency 12" "imok")
              metricsDefinition.reverse = some (s1, e1)
            ∧ populateMetrics (recordWith rejectGauges) ∅
              (buildRawMetrics "localhost" 2181 "zk_avg_latency 12" "")
              metricsDefinition.reverse = some (s2, e2)
            ∧ ∀ name : String, name ≠ "status" → s1.lookup name = s2.lookup name :=
  ⟨(liveness_isolated "localhost" 2181 "zk_avg_latency 12" "imok" "").1 "zk_avg_latency"
      (by decide),
    (liveness_isolated "localhost" 2181 "zk_avg_latency 12" "imok" "").2 rejectGauges
      metricsDefinition.reverse ∅ (List.reverse_perm metricsDefinition)⟩

/-- C12 (counterexample): with both commands failing and printing nothing,
`getMetricsData` on the empty metric set, with the recorder that accepts string
attributes and integer gauges, does not return the insufficient-metrics error: it
returns no error, and the metric set holds the three injected entries `zk_host`,
`zk_port` and `status`. -/
theorem getMetricsData_dead_no_error :
    (getMetricsData deadExec localArgs (recordIf acceptTyped) metricsDefinition ∅).map
        (fun r => (r.1.len, r.2)) = some (3, none)
      ∧ (getMetricsData deadExec localArgs (recordIf acceptTyped) metricsDefinition ∅).map
          (fun r => r.2) ≠ some (some errNoMetrics)
      ∧ (getMetricsData deadExec localArgs (recordIf acceptTyped) metricsDefinition ∅).map
          (fun r => (r.1.lookup "zk_host", r.1.lookup "zk_port", r.1.lookup "status"))
        = some (some (Iface.string "localhost"), some (Iface.string "2181"),
            some (Iface.int 0)) := by
  refine ⟨by decide, by decide, by decide⟩

theorem buildRawMetrics_empty (host : String) (port : Int) :
    buildRawMetrics host port "" ""
      = Finmap.insert "status" (Iface.int 0)
          (Finmap.insert "zk_port" (Iface.string (Itoa port))
            (Finmap.insert "zk_host" (Iface.string host) ∅)) := by
  unfold buildRawMetrics parseLines
  have hs : Split "" = [""] := by decide
  have hc : Contains "" "imok" = false := by decide
  rw [hs, hc]
  simp only [List.foldl_cons, List.foldl_nil]
  rw [parseLine_of_short _ "" (by decide)]
  rfl

theorem foldl_empty_outputs (host : String) (port : Int) :
    metricsDefinition.foldl
        (applyEntry (fun name value sourceType =>
          if acceptTyped name value sourceType then some value else none)
          (buildRawMetrics host port "" "")) ∅
      = Finmap.insert "zk_port" (Iface.string (Itoa port))
          (Finmap.insert "zk_host" (Iface.string host)
            (Finmap.insert "status" (Iface.int 0) ∅)) := by
  rw [buildRawMetrics_empty]
  simp [metricsDefinition, applyEntry, recorded, rawValue, rawSourceKey, entryType,
    Finmap.lookup_insert, Finmap.lookup_insert_of_ne, acceptTyped]

theorem len_three (a b c : Iface) :
    GoMap.len (Finmap.insert "zk_port" a (Finmap.insert "zk_host" b
      (Finmap.insert "status" c (∅ : MetricSet)))) = 3 := by
  rfl

/-- C12 (amended): when both the statistics command and the liveness command return
empty text, `getMetricsData`, run on the empty metric set with the recorder that
accepts string attributes and integer gauges, returns no error, for every host, port
and visiting order of the catalog: the metric set holds exactly the three injected
entries, the configured host under `zk_host`, the decimal string of the port under
`zk_port` and `status = 0`, which is not fewer than 2 entries. -/
theorem getMetricsData_empty_outputs (exec : Exec) (args : Args)
    (order : List (String × List Iface)) (hp : order.Perm metricsDefinition)
    (hm : runCommand exec args (TrimSpace args.Cmd) "mntr" = "")
    (hr : runCommand exec args (TrimSpace args.Cmd) "ruok" = "") :
    ∃ s : MetricSet,
      getMetricsData exec args (recordIf acceptTyped) order ∅ = some (s, none)
        ∧ s.len = 3
        ∧ s.lookup "zk_host" = some (Iface.string args.Host)
        ∧ s.lookup "zk_port" = some (Iface.string (Itoa args.Port))
        ∧ s.lookup "status" = some (Iface.int 0)
        ∧ ∀ k : String, k ∈ s ↔ k = "zk_host" ∨ k = "zk_port" ∨ k = "status" := by
  refine ⟨Finmap.insert "zk_port" (Iface.string (Itoa args.Port))
      (Finmap.insert "zk_host" (Iface.string args.Host)
        (Finmap.insert "status" (Iface.int 0) ∅)), ?_, len_three _ _ _, ?_, ?_, ?_, ?_⟩
  · unfold getMetricsData
    simp only [hm, hr]
    unfold recordIf
    rw [populateMetrics_perm _ _ order metricsDefinition ∅ hp (order_names_nodup order hp),
      populateMetrics_recordWith _ _ _ _ metricsDefinition_entryOK, foldl_empty_outputs,
      len_three, if_neg (by decide)]
  · rw [Finmap.lookup_insert_of_ne _ (by decide), Finmap.lookup_insert]
  · rw [Finmap.lookup_insert]
  · rw [Finmap.lookup_insert_of_ne _ (by decide), Finmap.lookup_insert_of_ne _ (by decide),
      Finmap.lookup_insert]
  · intro k
    simp only [Finmap.mem_insert, Finmap.not_mem_empty, or_false]
    tauto

/-- C12 (amended) at a concrete input: every invocation fails with empty output, the
catalog is visited last entry first. -/
theorem getMetricsData_empty_outputs_witness :
    ∃ s : MetricSet,
      getMetricsData deadExec localArgs (recordIf acceptTyped) metricsDefinition.reverse ∅
          = some (s, none)
        ∧ s.len = 3
        ∧ s.lookup "zk_host" = some (Iface.string localArgs.Host)
        ∧ s.lookup "zk_port" = some (Iface.string (Itoa localArgs.Port))
        ∧ s.lookup "status" = some (Iface.int 0)
        ∧ ∀ k : String, k ∈ s ↔ k = "zk_host" ∨ k = "zk_port" ∨ k = "status" :=
  getMetricsData_empty_outputs deadExec localArgs metricsDefinition.reverse
    (List.reverse_perm metricsDefinition) rfl rfl

/-- C13 (counterexample): with the statistics output `zk_host elsewhere`, `zk_port 9999`
the raw sample does not hold the configured host and port under the reserved keys: it
holds `String "elsewhere"` and `Integer 9999`. -/
theorem reserved_keys_overwritten :
    (buildRawMetrics "localhost" 2181 shadowingMntr "imok").lookup "zk_host"
        = some (Iface.string "elsewhere")
      ∧ (buildRawMetrics "localhost" 2181 shadowingMntr "imok").lookup "zk_host"
        ≠ some (Iface.string "localhost")
      ∧ (buildRawMetrics "localhost" 2181 shadowingMntr "imok").lookup "zk_port"
        = some (Iface.int 9999)
      ∧ (buildRawMetrics "localhost" 2181 shadowingMntr "imok").lookup "zk_port"
        ≠ some (Iface.string (Itoa 2181)) := by
  refine ⟨by decide, by decide, by decide, by decide⟩

/-- C13 (amended): for every host, port and liveness output, when no line of the
statistics output with at least two fields has first field `zk_host`, the raw sample
holds the configured host string under `zk_host`; when none has first field `zk_port`,
it holds the decimal string of the configured port under `zk_port`, as a `String`; and
a statistics line with a reserved key as first field overrides the injected value with
`asValue` of the second field of the last such line. -/
theorem reserved_keys_injected (host : String) (port : Int) (mntrOut ruokOut : String) :
    (NoLineFor "zk_host" mntrOut →
        (buildRawMetrics host port mntrOut ruokOut).lookup "zk_host"
          = some (Iface.string host))
      ∧ (NoLineFor "zk_port" mntrOut →
        (buildRawMetrics host port mntrOut ruokOut).lookup "zk_port"
          = some (Iface.string (Itoa port)))
      ∧ ∀ (k : String) (pre post : List String) (line v : String) (rest : List String),
          k ≠ "status" → Split mntrOut = pre ++ line :: post →
          Fields line = k :: v :: rest → (∀ l ∈ post, ∀ v2 rest2, Fields l ≠ k :: v2 :: rest2) →
          (buildRawMetrics host port mntrOut ruokOut).lookup k = some (asValue v) := by
  refine ⟨?_, ?_, ?_⟩
  · intro h
    rw [lookup_buildRawMetrics_of_ne _ _ _ _ _ (by decide)]
    unfold parseLines
    rw [lookup_foldl_parseLine_of_not _ _ _ h,
      Finmap.lookup_insert_of_ne _ (by decide), Finmap.lookup_insert]
  · intro h
    rw [lookup_buildRawMetrics_of_ne _ _ _ _ _ (by decide)]
    unfold parseLines
    rw [lookup_foldl_parseLine_of_not _ _ _ h, Finmap.lookup_insert]
  · intro k pre post line v rest hk hsplit hline hlast
    rw [lookup_buildRawMetrics_of_ne _ _ _ _ _ hk]
    exact (lookup_parseLines_of_last mntrOut _ k pre post line v rest hsplit hline hlast)

/-- C13 (amended) at a concrete input: a statistics output without reserved keys. -/
theorem reserved_keys_injected_witness :
    (buildRawMetrics "localhost" 2181 "zk_avg_latency 12" "imok").lookup "zk_host"
        = some (Iface.string "localhost")
      ∧ (buildRawMetrics "localhost" 2181 "zk_avg_latency 12" "imok").lookup "zk_port"
        = some (Iface.string "2181") :=
  ⟨(reserved_keys_injected "localhost" 2181 "zk_avg_latency 12" "imok").1
      (by
        intro l hl v rest h
        have hs : Split "zk_avg_latency 12" = ["zk_avg_latency 12"] := by decide
        rw [hs, List.mem_singleton] at hl
        subst hl
        have hf : Fields "zk_avg_latency 12" = ["zk_avg_latency", "12"] := by decide
        rw [hf] at h
        revert h
        simp),
    (reserved_keys_injected "localhost" 2181 "zk_avg_latency 12" "imok").2.1
      (by
        intro l hl v rest h
        have hs : Split "zk_avg_latency 12" = ["zk_avg_latency 12"] := by decide
        rw [hs, List.mem_singleton] at hl
        subst hl
        have hf : Fields "zk_avg_latency 12" = ["zk_avg_latency", "12"] := by decide
        rw [hf] at h
        revert h
        simp)⟩

/-! ## `runCommand` -/

/-- C14 (counterexample): the invocation fails after printing a statistics line, and
`runCommand` returns that line, not the empty string. -/
theorem runCommand_failed_not_empty :
    (partialExec "nc" [TrimSpace localArgs.Host, Itoa localArgs.Port] "mntr").failed = true
      ∧ runCommand partialExec localArgs "nc" "mntr" = "zk_avg_latency 12\n"
      ∧ runCommand partialExec localArgs "nc" "mntr" ≠ "" := by
  refine ⟨rfl, rfl, by decide⟩

/-- C14 (amended): `runCommand` returns exactly the captured standard output of the
run, whether or not the invocation failed, so on a failed invocation it returns the
empty string when nothing was captured on standard output; and two runs with the same
standard output give the same result whatever their standard error and failure flag. -/
theorem runCommand_stdout (exec : Exec) (args : Args) (cmdExecutable zkCommand : String) :
    runCommand exec args cmdExecutable zkCommand
        = (exec cmdExecutable [TrimSpace args.Host, Itoa args.Port] zkCommand).stdout
      ∧ ((exec cmdExecutable [TrimSpace args.Host, Itoa args.Port] zkCommand).failed = true →
          (exec cmdExecutable [TrimSpace args.Host, Itoa args.Port] zkCommand).stdout = "" →
          runCommand exec args cmdExecutable zkCommand = "")
      ∧ ∀ exec2 : Exec,
          (exec2 cmdExecutable [TrimSpace args.Host, Itoa args.Port] zkCommand).stdout
            = (exec cmdExecutable [TrimSpace args.Host, Itoa args.Port] zkCommand).stdout →
          runCommand exec2 args cmdExecutable zkCommand
            = runCommand exec args cmdExecutable zkCommand := by
  refine ⟨rfl, ?_, ?_⟩
  · intro _ h
    unfold runCommand
    exact h
  · intro exec2 h
    unfold runCommand
    exact h

/-- C14 (amended) at a concrete input: the failed run of `deadExec` captured nothing,
and it differs from a successful empty run only in standard error and failure flag. -/
theorem runCommand_stdout_witness :
    runCommand deadExec localArgs "nc" "ruok" = ""
      ∧ runCommand (fun _ _ _ => ⟨"", "", false⟩) localArgs "nc" "ruok"
        = runCommand deadExec localArgs "nc" "ruok" :=
  ⟨(runCommand_stdout deadExec localArgs "nc" "ruok").2.1 rfl rfl,
    (runCommand_stdout deadExec localArgs "nc" "ruok").2.2 (fun _ _ _ => ⟨"", "", false⟩) rfl⟩

/-! ## Boolean spellings, totality and the catalog invariants -/

theorem eq_of_toLower (c p : Char) (h : c.toLower = p) :
    c = p ∨ c = Char.ofNat (p.toNat - 32) := by
  unfold Char.toLower at h
  simp only at h
  split at h
  · rename_i hup
    right
    have hc : c = Char.ofNat c.toNat := (Char.ofNat_toNat c).symm
    rw [hc, ← h]
    generalize c.toNat = n at hup
    obtain ⟨h1, h2⟩ := hup
    interval_cases n <;> decide
  · exact Or.inl h

/-- C15 (counterexample): the mixed-case spellings `tRuE` and `fAlSe` are not returned
as Booleans but as the unchanged strings. -/
theorem asValue_mixed_case :
    asValue "tRuE" = Iface.string "tRuE" ∧ asValue "tRuE" ≠ Iface.bool true
      ∧ asValue "fAlSe" = Iface.string "fAlSe" ∧ asValue "fAlSe" ≠ Iface.bool false := by
  refine ⟨by decide, by decide, by decide, by decide⟩

/-- C15 (amended): of the tokens that equal `true` when letter case is ignored, the
three spellings `true`, `TRUE` and `True` give `Boolean true` and every other casing is
returned as the unchanged `String`; likewise `false`, `FALSE` and `False` give
`Boolean false` and every other casing of `false` is returned as the unchanged
`String`. -/
theorem asValue_bool_casings (token : String) :
    (token.data.map Char.toLower = ['t', 'r', 'u', 'e'] →
        (token ∈ ["true", "TRUE", "True"] ∧ asValue token = Iface.bool true)
          ∨ (token ∉ ["true", "TRUE", "True"] ∧ asValue token = Iface.string token))
      ∧ (token.data.map Char.toLower = ['f', 'a', 'l', 's', 'e'] →
        (token ∈ ["false", "FALSE", "False"] ∧ asValue token = Iface.bool false)
          ∨ (token ∉ ["false", "FALSE", "False"] ∧ asValue token = Iface.string token)) := by
  obtain ⟨l⟩ := token
  constructor
  · intro h
    simp only at h
    rcases l with _ | ⟨c1, _ | ⟨c2, _ | ⟨c3, _ | ⟨c4, _ | ⟨c5, r⟩⟩⟩⟩⟩ <;>
      simp only [List.map_cons, List.map_nil, List.cons.injEq, and_true, reduceCtorEq,
        and_false, false_and] at h
    obtain ⟨h1, h2, h3, h4⟩ := h
    rcases eq_of_toLower _ _ h1 with rfl | rfl <;>
    rcases eq_of_toLower _ _ h2 with rfl | rfl <;>
    rcases eq_of_toLower _ _ h3 with rfl | rfl <;>
    rcases eq_of_toLower _ _ h4 with rfl | rfl <;> decide
  · intro h
    simp only at h
    rcases l with _ | ⟨c1, _ | ⟨c2, _ | ⟨c3, _ | ⟨c4, _ | ⟨c5, _ | ⟨c6, r⟩⟩⟩⟩⟩⟩ <;>
      simp only [List.map_cons, List.map_nil, List.cons.injEq, and_true, reduceCtorEq,
        and_false, false_and] at h
    obtain ⟨h1, h2, h3, h4, h5⟩ := h
    rcases eq_of_toLower _ _ h1 with rfl | rfl <;>
    rcases eq_of_toLower _ _ h2 with rfl | rfl <;>
    rcases eq_of_toLower _ _ h3 with rfl | rfl <;>
    rcases eq_of_toLower _ _ h4 with rfl | rfl <;>
    rcases eq_of_toLower _ _ h5 with rfl | rfl <;> decide

/-- C15 (amended) at concrete inputs: `TRUE` is a Boolean, `tRuE` is a String. -/
theorem asValue_bool_casings_witness :
    ((("TRUE" : String) ∈ ["true", "TRUE", "True"] ∧ asValue "TRUE" = Iface.bool true)
        ∨ (("TRUE" : String) ∉ ["true", "TRUE", "True"]
            ∧ asValue "TRUE" = Iface.string "TRUE"))
      ∧ ((("fAlSe" : String) ∈ ["false", "FALSE", "False"]
            ∧ asValue "fAlSe" = Iface.bool false)
        ∨ (("fAlSe" : String) ∉ ["false", "FALSE", "False"]
            ∧ asValue "fAlSe" = Iface.string "fAlSe")) :=
  ⟨(asValue_bool_casings "TRUE").1 (by decide), (asValue_bool_casings "fAlSe").2 (by decide)⟩

/-- C16: `asValue` is total and deterministic: for every input string it returns a
value of exactly one of the four kinds Integer, Float, Boolean, String (never a value
of another kind), the String kind holding the input itself; the empty string gives
`String ""`; and equal inputs give equal values. -/
theorem asValue_total (value : String) :
    ((∃ n, asValue value = Iface.int n) ∨ (∃ f, asValue value = Iface.float64 f)
        ∨ (∃ b, asValue value = Iface.bool b) ∨ asValue value = Iface.string value)
      ∧ (∀ t, asValue value ≠ Iface.sourceType t)
      ∧ (∀ s, asValue value = Iface.string s → s = value)
      ∧ ¬ ((∃ n, asValue value = Iface.int n) ∧ (∃ f, asValue value = Iface.float64 f))
      ∧ ¬ ((∃ n, asValue value = Iface.int n) ∧ (∃ b, asValue value = Iface.bool b))
      ∧ ¬ ((∃ n, asValue value = Iface.int n) ∧ (∃ s, asValue value = Iface.string s))
      ∧ ¬ ((∃ f, asValue value = Iface.float64 f) ∧ (∃ b, asValue value = Iface.bool b))
      ∧ ¬ ((∃ f, asValue value = Iface.float64 f) ∧ (∃ s, asValue value = Iface.string s))
      ∧ ¬ ((∃ b, asValue value = Iface.bool b) ∧ (∃ s, asValue value = Iface.string s))
      ∧ asValue "" = Iface.string ""
      ∧ ∀ value2 : String, value2 = value → asValue value2 = asValue value := by
  have hcases : (∃ n, asValue value = Iface.int n) ∨ (∃ f, asValue value = Iface.float64 f)
      ∨ (∃ b, asValue value = Iface.bool b) ∨ asValue value = Iface.string value := by
    unfold asValue
    cases Atoi value with
    | some i => exact Or.inl ⟨i, rfl⟩
    | none =>
      cases ParseFloat value with
      | some f => exact Or.inr (Or.inl ⟨f, rfl⟩)
      | none =>
        cases ParseBool value with
        | some b => exact Or.inr (Or.inr (Or.inl ⟨b, rfl⟩))
        | none => exact Or.inr (Or.inr (Or.inr rfl))
  refine ⟨hcases, ?_, ?_, ?_, ?_, ?_, ?_, ?_, ?_, by decide, ?_⟩
  · intro t ht
    rcases hcases with ⟨n, h⟩ | ⟨f, h⟩ | ⟨b, h⟩ | h <;> rw [h] at ht <;> cases ht
  · intro s hs
    rcases hcases with ⟨n, h⟩ | ⟨f, h⟩ | ⟨b, h⟩ | h <;> rw [h] at hs <;> cases hs
    rfl
  · rintro ⟨⟨n, h1⟩, ⟨f, h2⟩⟩
    rw [h1] at h2
    cases h2
  · rintro ⟨⟨n, h1⟩, ⟨b, h2⟩⟩
    rw [h1] at h2
    cases h2
  · rintro ⟨⟨n, h1⟩, ⟨s, h2⟩⟩
    rw [h1] at h2
    cases h2
  · rintro ⟨⟨f, h1⟩, ⟨b, h2⟩⟩
    rw [h1] at h2
    cases h2
  · rintro ⟨⟨f, h1⟩, ⟨s, h2⟩⟩
    rw [h1] at h2
    cases h2
  · rintro ⟨⟨b, h1⟩, ⟨s, h2⟩⟩
    rw [h1] at h2
    cases h2
  · intro value2 h
    rw [h]

/-- C17: in the built-in catalog every entry has a raw source key, the key is a
non-empty string, and no canonical name occurs twice. -/
theorem metricsDefinition_invariant :
    (∀ e ∈ metricsDefinition, ∃ source, rawSourceKey e = some source ∧ source ≠ "")
      ∧ (names metricsDefinition).Nodup := by
  refine ⟨?_, by decide⟩
  have h : ∀ e ∈ metricsDefinition,
      (rawSourceKey e).isSome = true ∧ rawSourceKey e ≠ some "" := by
    decide
  intro e he
  obtain ⟨h1, h2⟩ := h e he
  cases hs : rawSourceKey e with
  | none => rw [hs] at h1; cases h1
  | some source =>
    refine ⟨source, rfl, ?_⟩
    rintro rfl
    exact h2 hs

theorem metricsDefinition_shape :
    ∀ e ∈ metricsDefinition,
      e.2.length = 2 ∧ (rawSourceKey e).isSome = true ∧ (entryType e).isSome = true := by
  decide

/-- C18: every entry of the built-in catalog is a slice of exactly two elements, the
first a string and the second a source type, so `metricInfo[0]` and `metricInfo[1]`
are in range, the type assertion succeeds and the raw source is a string (the
`Invalid raw source metric` branch is not taken); hence for every recorder, initial
metric set, raw sample and visiting order `populateMetrics` returns without a panic. -/
theorem populateMetrics_builtin_no_panic :
    (∀ e ∈ metricsDefinition,
        ∃ source t, e.2 = [Iface.string source, Iface.sourceType t]
          ∧ e.2.get? 0 = some (Iface.string source)
          ∧ e.2.get? 1 = some (Iface.sourceType t)
          ∧ rawSourceKey e = some source)
      ∧ ∀ (setMetric : SetMetric) (sample : MetricSet) (rawSample : GoMap Iface)
          (order : List (String × List Iface)), order.Perm metricsDefinition →
          ∃ s err, populateMetrics setMetric sample rawSample order = some (s, err) := by
  constructor
  · intro e he
    obtain ⟨hlen, hs, ht⟩ := metricsDefinition_shape e he
    obtain ⟨name, info⟩ := e
    match info, hlen with
    | [a, b], _ =>
      unfold rawSourceKey at hs
      unfold entryType at ht
      cases a with
      | string source =>
        cases b with
        | sourceType t => exact ⟨source, t, rfl, rfl, rfl, rfl⟩
        | _ => simp at ht
      | _ => simp at hs
  · intro setMetric sample rawSample order hp
    cases h : populateMetrics setMetric sample rawSample order with
    | some r => exact ⟨r.1, r.2, rfl⟩
    | none =>
      obtain ⟨e, he, hne⟩ := (populateMetrics_eq_none setMetric rawSample order sample).1 h
      rw [order_entryOK order hp e he] at hne
      cases hne

/-- C18 at a concrete input: the catalog visited last entry first, a recorder that
always reports an error and adds a marker entry, a non-empty initial set. -/
theorem populateMetrics_builtin_no_panic_witness :
    ∃ s err, populateMetrics (fun sample _ _ _ => (sample.insert "seen" (Iface.bool true),
        some "rejected")) latencyMetrics mixedSample metricsDefinition.reverse
      = some (s, err) :=
  populateMetrics_builtin_no_panic.2 _ latencyMetrics mixedSample metricsDefinition.reverse
    (List.reverse_perm metricsDefinition)

theorem ParseBool_eq_some (token : String) (b : Bool) (h : ParseBool token = some b) :
    (b = true ∧ token ∈ ["1", "t", "T", "true", "TRUE", "True"])
      ∨ (b = false ∧ token ∈ ["0", "f", "F", "false", "FALSE", "False"]) := by
  unfold ParseBool at h
  split_ifs at h with h1 h2
  · injection h with h
    left
    refine ⟨h.symm, ?_⟩
    simp only [List.mem_cons, List.mem_singleton, List.not_mem_nil, or_false]
    exact h1
  · injection h with h
    right
    refine ⟨h.symm, ?_⟩
    simp only [List.mem_cons, List.mem_singleton, List.not_mem_nil, or_false]
    exact h2

/-- C19: `asValue` returns `Boolean b` exactly for the ten tokens `t`, `T`, `true`,
`True`, `TRUE` (with `b = true`) and `f`, `F`, `false`, `False`, `FALSE` (with
`b = false`); the boolean spellings `1` and `0` are returned as `Integer 1` and
`Integer 0`. -/
theorem asValue_bool_iff (token : String) (b : Bool) :
    (asValue token = Iface.bool b
        ↔ (b = true ∧ token ∈ ["t", "T", "true", "True", "TRUE"])
          ∨ (b = false ∧ token ∈ ["f", "F", "false", "False", "FALSE"]))
      ∧ asValue "1" = Iface.int 1 ∧ asValue "0" = Iface.int 0 := by
  refine ⟨⟨?_, ?_⟩, by decide, by decide⟩
  · intro h
    have hb : Atoi token = none ∧ ParseBool token = some b := by
      unfold asValue at h
      cases ha : Atoi token with
      | some i => rw [ha] at h; cases h
      | none =>
        rw [ha] at h
        cases hf : ParseFloat token with
        | some f => rw [hf] at h; cases h
        | none =>
          rw [hf] at h
          cases hp : ParseBool token with
          | none => rw [hp] at h; cases h
          | some b2 =>
            rw [hp] at h
            injection h with h
            rw [h]
            exact ⟨rfl, rfl⟩
    obtain ⟨ha, hp⟩ := hb
    rcases ParseBool_eq_some token b hp with ⟨hb, hm⟩ | ⟨hb, hm⟩
    · left
      refine ⟨hb, ?_⟩
      simp only [List.mem_cons, List.mem_singleton, List.not_mem_nil, or_false] at hm ⊢
      rcases hm with rfl | rfl | rfl | rfl | rfl | rfl
      · exact absurd ha (by decide)
      all_goals simp
    · right
      refine ⟨hb, ?_⟩
      simp only [List.mem_cons, List.mem_singleton, List.not_mem_nil, or_false] at hm ⊢
      rcases hm with rfl | rfl | rfl | rfl | rfl | rfl
      · exact absurd ha (by decide)
      all_goals simp
  · rintro (⟨rfl, hm⟩ | ⟨rfl, hm⟩)
    · simp only [List.mem_cons, List.mem_singleton, List.not_mem_nil, or_false] at hm
      rcases hm with rfl | rfl | rfl | rfl | rfl <;> decide
    · simp only [List.mem_cons, List.mem_singleton, List.not_mem_nil, or_false] at hm
      rcases hm with rfl | rfl | rfl | rfl | rfl <;> decide

/-- C20: in the built-in catalog the raw source key of `status`, `zk_host` and
`zk_port` is the canonical name and the raw source key of every other entry is `zk_`
followed by the canonical name; the raw source keys are pairwise distinct, so two
entries with the same raw source key are the same entry. -/
theorem metricsDefinition_sourceKeys :
    (∀ e ∈ metricsDefinition,
        rawSourceKey e
          = some (if e.1 = "status" ∨ e.1 = "zk_host" ∨ e.1 = "zk_port" then e.1
              else "zk_" ++ e.1))
      ∧ (sourceKeys metricsDefinition).Nodup
      ∧ (sourceKeys metricsDefinition).length = 20
      ∧ ∀ e1 ∈ metricsDefinition, ∀ e2 ∈ metricsDefinition,
          rawSourceKey e1 = rawSourceKey e2 → e1 = e2 := by
  refine ⟨by decide, by decide, by decide, ?_⟩
  intro e1 h1 e2 h2 h
  exact List.inj_on_of_nodup_map metricsDefinition_sourceKey_nodup h1 h2 h

end Zk
